import Mathlib

/-!
# Verification of the livestream quality-analysis pipeline

A shallow embedding of the signal-extraction and scoring core of the
`livestream_ai` repository, together with proofs of the specification claims.

Conventions of the embedding:
* Python floats are modelled as exact rationals (`ℚ`) wherever the source
  computes with rational operations only, and as real numbers (`ℝ`) where the
  source uses transcendental functions (`exp`, fractional powers).  Float
  rounding error, `NaN` and infinities are outside the model; a comment marks
  each place where the source guards against non-finite values.
* `cv2` / `mediapipe` / `pytesseract` / ASR backends are external collaborators.
  Frames are therefore represented by the metric values the collaborator would
  extract from them, and OCR calls by their observable outcome.
* Python `round(x, n)` (banker's rounding on binary floats) is modelled by
  `round (x * 10^n) / 10^n` with Mathlib's `round`; the claims proved here do
  not depend on tie-breaking behaviour.
-/

namespace Livestream

/-! ## Scene analysis: scoring curves (`scene_analysis/metrics_frame.py`) -/

/-- `band_score(x, lo, hi)` from `metrics_frame.py`: inside the target band the
score is 80–100, decaying linearly to 0 outside. -/
def band_score (x lo hi : ℚ) : ℚ :=
  if x ≤ lo then max 0 (100 * (x / max lo (1/1000000)))
  else if x ≥ hi then max 0 (100 * ((255 - x) / max (255 - hi) (1/1000000)))
  else 80 + 20 * (x - lo) / max (hi - lo) (1/1000000)

/-- `linear_score(x, lo, hi)` from `metrics_frame.py`. -/
def linear_score (x lo hi : ℚ) : ℚ :=
  let x' := max lo (min hi x)
  100 * (x' - lo) / max (hi - lo) (1/1000000)

/-- `inverse_score(x, good, bad)` from `metrics_frame.py`. -/
def inverse_score (x good bad : ℚ) : ℚ :=
  if x ≤ good then 100
  else if x ≥ bad then 0
  else 100 * (bad - x) / max (bad - good) (1/1000000)

/-! ## Scene configuration (`scene_analysis/scene_config.py`) -/

/-- `SceneConfig` dataclass; field defaults are the Python defaults.
The OCR language / psm strings are irrelevant to the model and omitted. -/
structure SceneConfig where
  sample_fps : ℚ := 1
  ocr_every_s : ℚ := 5
  brightness_lo : ℚ := 120
  brightness_hi : ℚ := 180
  saturation_lo : ℚ := 60
  saturation_hi : ℚ := 160
  contrast_lo : ℚ := 40
  contrast_hi : ℚ := 160
  sharpness_lo : ℚ := 100
  sharpness_hi : ℚ := 300
  color_cast_good : ℚ := 10
  color_cast_bad : ℚ := 40
  dark_v_thresh : ℚ := 110
  blur_varlap_thresh : ℚ := 120
  no_logo_min_s : ℚ := 8
  ocr_only_if_sharp : Bool := true
  ocr_min_varlap : ℚ := 140
  autoscale_enabled : Bool := true
  w_exposure : ℚ := 30/100
  w_sharpness : ℚ := 25/100
  w_contrast : ℚ := 15/100
  w_saturation : ℚ := 10/100
  w_colorcast : ℚ := 10/100
  w_logo : ℚ := 10/100
deriving DecidableEq

/-- The default `SceneConfig()`. -/
def defaultSceneConfig : SceneConfig := {}

/-- `autoscale_config` from `scene_analysis/autoscale.py`: lower the sampling
rate and raise the OCR period for long videos; all other fields unchanged. -/
def autoscale_config (cfg : SceneConfig) (duration_s : ℚ) : SceneConfig :=
  if !cfg.autoscale_enabled then cfg
  else
    let mins := duration_s / 60
    if mins < 10 then cfg
    else if mins < 30 then
      { cfg with sample_fps := min cfg.sample_fps (1/2), ocr_every_s := max cfg.ocr_every_s 8 }
    else if mins < 60 then
      { cfg with sample_fps := min cfg.sample_fps (33/100), ocr_every_s := max cfg.ocr_every_s 12 }
    else
      { cfg with sample_fps := min cfg.sample_fps (1/5), ocr_every_s := max cfg.ocr_every_s 20 }

/-! ## Shared numeric helpers -/

/-- `np.mean` of a list (only ever applied to non-empty lists in the source;
`ℚ` division by zero makes the empty case 0 rather than NaN). -/
def listMean (l : List ℚ) : ℚ := l.sum / l.length

/-- Python `round(x, 1)` modelled over `ℚ`. -/
def roundTo1 (x : ℚ) : ℚ := (round (x * 10) : ℤ) / 10

/-- Python `round(x, 3)` modelled over `ℚ`. -/
def roundTo3 (x : ℚ) : ℚ := (round (x * 1000) : ℤ) / 1000

/-- Python `round(x, 4)` modelled over `ℚ`. -/
def roundTo4 (x : ℚ) : ℚ := (round (x * 10000) : ℤ) / 10000

/-! ## Highlights (`scene_analysis/highlights.py`)

`compress_runs` walks `zip(times, mask)` keeping the start time of the open
`True` run and the previous timestamp, emitting `(start, prev)` whenever a run
closes (or at end of input) and lasted at least `min_s` seconds.  The source's
`for` loop becomes the explicit recursion `crGo`; its post-loop flush is the
`[]` case.  `emotion_analysis.py` contains a local verbatim copy of the same
function; this definition models both. -/

/-- One `(start, end)` highlight interval with its reason.  The Python dict key
`end` is a Lean keyword and is rendered `stop`. -/
structure Highlight where
  start : ℚ
  stop : ℚ
  reason : String
deriving DecidableEq

/-- Loop body + flush of `compress_runs`. -/
def crGo (min_s : ℚ) (out : List (ℚ × ℚ)) (start_t prev_t : Option ℚ) :
    List (ℚ × Bool) → List (ℚ × ℚ)
  | [] =>
    match start_t, prev_t with
    | some s, some p => if min_s ≤ p - s then out ++ [(s, p)] else out
    | _, _ => out
  | (t, flag) :: rest =>
    if flag then
      crGo min_s out (if start_t = none then some t else start_t) (some t) rest
    else
      match start_t, prev_t with
      | some s, some p =>
        crGo min_s (if min_s ≤ p - s then out ++ [(s, p)] else out) none (some t) rest
      | some _, none => crGo min_s out none (some t) rest
      | none, _ => crGo min_s out none (some t) rest

/-- `compress_runs(times, mask, min_s)` from `highlights.py`. -/
def compress_runs (times : List ℚ) (mask : List Bool) (min_s : ℚ) : List (ℚ × ℚ) :=
  if times = [] then [] else crGo min_s [] none none (times.zip mask)

/-! ### Specification of run compression

`runsAuxT` is `crGo` without the duration filter: it lists every maximal run
as a `(start time, end time)` pair.  `runsAuxI` is the same recursion over
indices instead of timestamps; `runsIdx` lists the maximal `true` runs of a
mask as `(first index, last index)` pairs.  `IsRun` is the declarative
statement that `[a, b]` is a maximal contiguous `true` run. -/

/-- All runs (with timestamps), no duration filter. -/
def runsAuxT (start_t prev_t : Option ℚ) : List (ℚ × Bool) → List (ℚ × ℚ)
  | [] =>
    match start_t, prev_t with
    | some s, some p => [(s, p)]
    | _, _ => []
  | (t, flag) :: rest =>
    if flag then runsAuxT (if start_t = none then some t else start_t) (some t) rest
    else
      match start_t, prev_t with
      | some s, some p => (s, p) :: runsAuxT none (some t) rest
      | some _, none => runsAuxT none (some t) rest
      | none, _ => runsAuxT none (some t) rest

/-- All runs (as index intervals); `st` is the start index of the open run. -/
def runsAuxI (i : ℕ) (st : Option ℕ) : List Bool → List (ℕ × ℕ)
  | [] =>
    match st with
    | some a => [(a, i - 1)]
    | none => []
  | b :: rest =>
    if b then
      match st with
      | none => runsAuxI (i + 1) (some i) rest
      | some a => runsAuxI (i + 1) (some a) rest
    else
      match st with
      | some a => (a, i - 1) :: runsAuxI (i + 1) none rest
      | none => runsAuxI (i + 1) none rest

/-- The maximal `true` runs of a mask, as `(first, last)` index pairs. -/
def runsIdx (mask : List Bool) : List (ℕ × ℕ) := runsAuxI 0 none mask

/-- `[a, b]` is a maximal contiguous `true` run of `mask`. -/
def IsRun (mask : List Bool) (a b : ℕ) : Prop :=
  a ≤ b ∧ b < mask.length ∧
  (∀ j, a ≤ j → j ≤ b → mask.getD j false = true) ∧
  (a = 0 ∨ mask.getD (a - 1) false = false) ∧
  (b + 1 = mask.length ∨ mask.getD (b + 1) false = false)

/-- The mask value an interval list reconstructs at time `t`: `true` inside
some emitted interval, `false` elsewhere. -/
def reconstruct (out : List (ℚ × ℚ)) (t : ℚ) : Bool :=
  out.any (fun r => decide (r.1 ≤ t) && decide (t ≤ r.2))

/-! ## OCR (`scene_analysis/ocr_utils.py`)

The `pytesseract` backend is an external collaborator: a call on one frame
either finds the library missing (`unavailable`, the `pytesseract is None`
branch), raises (`failure`, the `except` branch), or returns word rows with
confidences and bounding-box sizes, plus the pixel area of the downscaled
image the boxes refer to. -/

/-- One row of `pytesseract.image_to_data` output: text, confidence, box width
and height (already `int()`-cast in the source). -/
structure OcrRow where
  text : String
  conf : ℚ
  width : ℕ
  height : ℕ
deriving DecidableEq

/-- Observable outcome of one OCR backend call. -/
inductive OcrOutcome where
  | unavailable
  | failure
  | success (rows : List OcrRow) (imgArea : ℕ)
deriving DecidableEq

/-- `ocr_on_frame`: returns `(words, text-area ratio)`; degrades to
`([], 0.0)` when the backend is unavailable or the per-frame call raises. -/
def ocr_on_frame (o : OcrOutcome) : List String × ℚ :=
  match o with
  | .unavailable => ([], 0)
  | .failure => ([], 0)
  | .success rows imgArea =>
    let kept := rows.filter (fun r => r.text.trim ≠ "" ∧ r.conf > 60)
    let words := kept.map (fun r => r.text.trim)
    let total_area : ℚ := (kept.map (fun r => ((r.width * r.height : ℕ) : ℚ))).sum
    let area_ratio := if (imgArea : ℚ) > 0 then total_area / (imgArea : ℚ) else 0
    (words, area_ratio)

/-- `logo_hit_by_keywords`: case-insensitive membership of any keyword in the
recognized word set.  An empty keyword list models `brand_keywords=None`
(both are falsy in the source guard). -/
def logo_hit_by_keywords (words : List String) (brand_keywords : List String) : Bool :=
  if brand_keywords.isEmpty then false
  else brand_keywords.any (fun kw => (words.map String.toLower).contains kw.toLower)

/-! ## Scene per-frame scan (`scene_analysis/scene_analysis.py`, main loop) -/

/-- The photometric metrics `frame_metrics` extracts from one decoded frame
(the `cv2` computations themselves are the external collaborator). -/
structure FrameMetrics where
  v_mean : ℚ
  s_mean : ℚ
  contrast_bw : ℚ
  varlap : ℚ
  color_cast : ℚ
deriving DecidableEq

/-- One decoded frame, as seen by the loop: its metrics and what the OCR
backend would report on it. -/
structure SceneFrame where
  m : FrameMetrics
  ocr : OcrOutcome
deriving DecidableEq

/-- One scene timeline record. -/
structure ScenePoint where
  t : ℚ
  v : ℚ
  s : ℚ
  varlap : ℚ
  logo : Bool
  text_area : ℚ
deriving DecidableEq

/-- Mutable loop state of `analyze_video`. -/
structure ScanState where
  times : List ℚ := []
  v_list : List ℚ := []
  s_list : List ℚ := []
  bw_list : List ℚ := []
  varlap_list : List ℚ := []
  cast_list : List ℚ := []
  ocr_frames : ℕ := 0
  ocr_logo_frames : ℕ := 0
  ocr_area_sum : ℚ := 0
  next_ocr_t : ℚ := 0
  timeline : List ScenePoint := []
  sampled : ℕ := 0
deriving DecidableEq

/-- One iteration of the `analyze_video` frame loop for frame index `i`. -/
def scanFrame (cfg : SceneConfig) (kws : List String) (fps : ℚ) (step : ℕ)
    (st : ScanState) (i : ℕ) (f : SceneFrame) : ScanState :=
  if i % step ≠ 0 then st
  else
    let t := (i : ℚ) / max fps (1/1000000)
    let st := { st with
      times := st.times ++ [t]
      v_list := st.v_list ++ [f.m.v_mean]
      s_list := st.s_list ++ [f.m.s_mean]
      bw_list := st.bw_list ++ [f.m.contrast_bw]
      varlap_list := st.varlap_list ++ [f.m.varlap]
      cast_list := st.cast_list ++ [f.m.color_cast]
      sampled := st.sampled + 1 }
    let do_ocr := t ≥ st.next_ocr_t ∧ (cfg.ocr_only_if_sharp → f.m.varlap ≥ cfg.ocr_min_varlap)
    if do_ocr then
      let (words, text_area) := ocr_on_frame f.ocr
      let logo_hit :=
        if ¬kws.isEmpty then logo_hit_by_keywords words kws else text_area > 1/100
      { st with
        ocr_frames := st.ocr_frames + 1
        ocr_logo_frames := st.ocr_logo_frames + (if logo_hit then 1 else 0)
        ocr_area_sum := st.ocr_area_sum + text_area
        next_ocr_t := t + max cfg.ocr_every_s 1
        timeline := st.timeline ++
          [⟨t, f.m.v_mean, f.m.s_mean, f.m.varlap, logo_hit, text_area⟩] }
    else
      { st with timeline := st.timeline ++
          [⟨t, f.m.v_mean, f.m.s_mean, f.m.varlap, false, 0⟩] }

/-- Whole frame loop of `analyze_video` over the decoded frames. -/
def sceneScan (cfg : SceneConfig) (kws : List String) (fps : ℚ) (step : ℕ)
    (frames : List SceneFrame) : ScanState :=
  frames.enum.foldl (fun st p => scanFrame cfg kws fps step st p.1 p.2) {}

/-! ## Scene aggregation and result (`analyze_video`, tail) -/

/-- The `signals` mapping of the scene block. -/
structure SceneSignals where
  brightness_mean : ℚ
  contrast_bw : ℚ
  sharpness_varlap : ℚ
  saturation_mean : ℚ
  color_cast : ℚ
  logo_visible_ratio : ℚ
  logo_area_mean : ℚ
deriving DecidableEq

/-- The scene `ScoreBundle` (`perf` timing is wall-clock and outside the model). -/
structure SceneBlock where
  score : ℚ
  signals : SceneSignals
  timeline : List ScenePoint
  highlights : List Highlight
deriving DecidableEq

/-- The six sub-scores computed by `analyze_video`. -/
structure SceneSubScores where
  exposure : ℚ
  saturation : ℚ
  contrast : ℚ
  sharp : ℚ
  color : ℚ
  logo : ℚ
deriving DecidableEq

/-- `logo_visible_ratio` as computed from the loop counters. -/
def logoVisibleRatio (st : ScanState) : ℚ :=
  if st.ocr_frames ≠ 0 then (st.ocr_logo_frames : ℚ) / max (st.ocr_frames : ℚ) 1 else 0

/-- `logo_area_mean` as computed from the loop counters. -/
def logoAreaMean (st : ScanState) : ℚ :=
  if st.ocr_frames ≠ 0 then st.ocr_area_sum / max (st.ocr_frames : ℚ) 1 else 0

/-- The sub-score computations of `analyze_video` (lines `s_exposure` …
`s_logo`), as functions of the loop state. -/
def sceneSubScores (cfg : SceneConfig) (st : ScanState) : SceneSubScores :=
  let v_mean := listMean st.v_list
  let s_mean := listMean st.s_list
  let bw_mean := listMean st.bw_list
  let varlap_mean := listMean st.varlap_list
  let cast_mean := listMean st.cast_list
  let logo_score_ratio := min 1 (logoVisibleRatio st / (30/100))
  let logo_score_area := min 1 (logoAreaMean st / (5/100))
  { exposure := band_score v_mean cfg.brightness_lo cfg.brightness_hi
    saturation := band_score s_mean cfg.saturation_lo cfg.saturation_hi
    contrast := linear_score bw_mean cfg.contrast_lo cfg.contrast_hi
    sharp := linear_score (max (min varlap_mean cfg.sharpness_hi) cfg.sharpness_lo)
      cfg.sharpness_lo cfg.sharpness_hi
    color := inverse_score cast_mean cfg.color_cast_good cfg.color_cast_bad
    logo := 100 * ((6/10) * logo_score_ratio + (4/10) * logo_score_area) }

/-- The weighted final score of `analyze_video`. -/
def sceneFinalScore (cfg : SceneConfig) (ss : SceneSubScores) : ℚ :=
  cfg.w_exposure * ss.exposure + cfg.w_sharpness * ss.sharp +
    cfg.w_contrast * ss.contrast + cfg.w_saturation * ss.saturation +
    cfg.w_colorcast * ss.color + cfg.w_logo * ss.logo

/-- The degenerate scene block returned when no frame could be sampled. -/
def emptySceneBlock : SceneBlock :=
  { score := 0
    signals := ⟨0, 0, 0, 0, 0, 0, 0⟩
    timeline := []
    highlights := [⟨0, 0, "无法抽帧/解码失败"⟩] }

/-- `duration = total_frames / fps` (0 when the frame count is unknown). -/
def sceneDuration (fps : ℚ) (total_frames : ℕ) : ℚ :=
  if total_frames > 0 then (total_frames : ℚ) / max fps (1/1000000) else 0

/-- The effective config after duration-based autoscaling. -/
def sceneEffConfig (fps : ℚ) (total_frames : ℕ) (config : SceneConfig) : SceneConfig :=
  autoscale_config config (sceneDuration fps total_frames)

/-- `step = max(int(round(fps / max(sample_fps, 1e-6))), 1)`. -/
def sceneStep (fps : ℚ) (cfg : SceneConfig) : ℕ :=
  max (round (fps / max cfg.sample_fps (1/1000000)) : ℤ).toNat 1

/-- The loop state `analyze_video` reaches after its frame loop. -/
def sceneRunState (fps : ℚ) (total_frames : ℕ) (frames : List SceneFrame)
    (kws : List String) (config : SceneConfig) : ScanState :=
  sceneScan (sceneEffConfig fps total_frames config) kws fps
    (sceneStep fps (sceneEffConfig fps total_frames config)) frames

/-- `analyze_video` from `scene_analysis/scene_analysis.py`, from the point
where the video has been opened.  `fps` and `total_frames` are the metadata
`cv2` reports; `frames` are the decodable frames in order (each carrying the
metrics and OCR outcome its pixels would produce); `kws` is `brand_keywords`
(empty list = `None`).  Exceptions cannot escape: the function is total. -/
def analyze_video (fps : ℚ) (total_frames : ℕ) (frames : List SceneFrame)
    (kws : List String) (config : SceneConfig) : SceneBlock :=
  let cfg := sceneEffConfig fps total_frames config
  let st := sceneRunState fps total_frames frames kws config
  if st.times = [] then emptySceneBlock
  else
    let ss := sceneSubScores cfg st
    let final_score := sceneFinalScore cfg ss
    let dark_mask := st.v_list.map (fun v => decide (v < cfg.dark_v_thresh))
    let blur_mask := st.varlap_list.map (fun vl => decide (vl < cfg.blur_varlap_thresh))
    let nologo_mask :=
      if st.timeline.any (fun d => d.logo) then st.timeline.map (fun d => !d.logo)
      else List.replicate st.timeline.length true
    let dark_spans := compress_runs st.times dark_mask cfg.no_logo_min_s
    let blur_spans := compress_runs st.times blur_mask cfg.no_logo_min_s
    let nologo_spans := compress_runs st.times nologo_mask cfg.no_logo_min_s
    let highlights :=
      dark_spans.map (fun p => Highlight.mk p.1 p.2 "画面偏暗") ++
      blur_spans.map (fun p => Highlight.mk p.1 p.2 "画面偏虚") ++
      nologo_spans.map (fun p => Highlight.mk p.1 p.2 "无商品/Logo露出")
    { score := roundTo1 final_score
      signals :=
        { brightness_mean := roundTo1 (listMean st.v_list)
          contrast_bw := roundTo1 (listMean st.bw_list)
          sharpness_varlap := roundTo1 (listMean st.varlap_list)
          saturation_mean := roundTo1 (listMean st.s_list)
          color_cast := roundTo1 (listMean st.cast_list)
          logo_visible_ratio := roundTo3 (logoVisibleRatio st)
          logo_area_mean := roundTo4 (logoAreaMean st) }
      timeline := st.timeline
      highlights := highlights }

/-! ## Language track (`text_language.py`)

Transcription is an external collaborator; the model starts from the list of
transcribed `Segment`s (whose text the source has already lower-cased). -/

/-- `Segment` dataclass.  The Python field `end` is a Lean keyword and is
rendered `stop`. -/
structure Segment where
  start : ℚ
  stop : ℚ
  text : String
deriving DecidableEq

/-- Characters matched by Python's `\s`. -/
def isWsChar (c : Char) : Bool :=
  c = ' ' ∨ c = '\t' ∨ c = '\n' ∨ c = '\r' ∨ c = '\x0b' ∨ c = '\x0c'

/-- Characters matched by Python's `\w` (ASCII range; all scanned text is
lower-cased ASCII transcript). -/
def isWordChar (c : Char) : Bool :=
  ('a' ≤ c ∧ c ≤ 'z') ∨ ('A' ≤ c ∧ c ≤ 'Z') ∨ c.isDigit ∨ c = '_'

/-- Characters matched by `_word_re = [a-z0-9]+` (applied after `.lower()`). -/
def isTokChar (c : Char) : Bool := ('a' ≤ c ∧ c ≤ 'z') ∨ c.isDigit

/-- Python `str.lower()` (ASCII). -/
def pyLower (s : String) : String := s.toLower

/-- Count of non-overlapping occurrences of `ph` in `cs` scanning left to
right and skipping `len(ph)` after each hit — the `t.find(ph, i)` /
`i += len(ph)` loop of `contains_any`.  `fuel` bounds the scan length. -/
def countOccsGo (ph : List Char) : ℕ → List Char → ℕ
  | 0, _ => 0
  | _ + 1, [] => 0
  | fuel + 1, c :: rest =>
    if ph.isPrefixOf (c :: rest) then
      1 + countOccsGo ph fuel ((c :: rest).drop ph.length)
    else countOccsGo ph fuel rest

/-- `contains_any(text, phrases)`: total count of non-overlapping,
case-insensitive occurrences of each (stripped) phrase. -/
def contains_any (text : String) (phrases : List String) : ℕ :=
  let t := pyLower text
  (phrases.map (fun ph0 =>
    let ph := (pyLower ph0).trim
    if ph = "" then 0 else countOccsGo ph.data (t.data.length + 1) t.data)).sum

/-! ### A small regex engine

`text_language.py` uses `re` with a handful of constructs: literals,
non-capturing alternation `(?:a|b)`, optional groups `(?:…)?`, `\s+`, `\s*`,
`\d+` and the word boundary `\b`.  The engine below supports exactly these.
`matchRE full r p` returns the possible end positions of a match of `r`
starting at position `p` of `full`, in Python's backtracking preference order
(alternatives left to right, quantifiers greedy). -/

inductive RE where
  | eps
  | lit (s : List Char)
  | wsPlus
  | wsStar
  | digPlus
  | wordB
  | seq (a b : RE)
  | alt (a b : RE)
  | opt (a : RE)

/-- Is the character at position `i` (if any) a word character? -/
def isWordAt (full : List Char) (i : ℕ) : Bool :=
  match full.get? i with
  | some c => isWordChar c
  | none => false

/-- Python's `\b` at position `p`. -/
def wordBoundary (full : List Char) (p : ℕ) : Bool :=
  (if p = 0 then false else isWordAt full (p - 1)) != isWordAt full p

/-- Match-end positions (in preference order) for `r` at position `p`. -/
def matchRE (full : List Char) : RE → ℕ → List ℕ
  | .eps, p => [p]
  | .lit s, p => if s.isPrefixOf (full.drop p) then [p + s.length] else []
  | .wsPlus, p =>
    let k := ((full.drop p).takeWhile isWsChar).length
    (List.range k).map (fun j => p + k - j)
  | .wsStar, p =>
    let k := ((full.drop p).takeWhile isWsChar).length
    (List.range (k + 1)).map (fun j => p + k - j)
  | .digPlus, p =>
    let k := ((full.drop p).takeWhile Char.isDigit).length
    (List.range k).map (fun j => p + k - j)
  | .wordB, p => if wordBoundary full p then [p] else []
  | .seq a b, p => (matchRE full a p).flatMap (matchRE full b)
  | .alt a b, p => matchRE full a p ++ matchRE full b p
  | .opt a, p => matchRE full a p ++ [p]

/-- `re.search`: does `r` match anywhere in `s`? -/
def regexSearch (r : RE) (s : String) : Bool :=
  (List.range (s.data.length + 1)).any (fun p => !(matchRE s.data r p).isEmpty)

/-- `len(re.findall(r, s))`: scan left to right, counting non-overlapping
matches and resuming after each one. -/
def regexCountGo (r : RE) (full : List Char) : ℕ → ℕ → ℕ
  | 0, _ => 0
  | fuel + 1, p =>
    if p > full.length then 0
    else
      match (matchRE full r p).head? with
      | some q => if q > p then 1 + regexCountGo r full fuel q
                  else 1 + regexCountGo r full fuel (p + 1)
      | none => regexCountGo r full fuel (p + 1)

/-- Number of matches of `r` in `s` (findall semantics, patterns have only
non-capturing groups). -/
def regexCount (r : RE) (s : String) : ℕ :=
  regexCountGo r s.data (s.data.length + 2) 0

/-- Chain a list of regexes in sequence. -/
def reSeq (l : List RE) : RE := l.foldr RE.seq RE.eps

/-- Literal regex from a string. -/
def litS (s : String) : RE := RE.lit s.data

/-! ### Lexicons (module-level constants of `text_language.py`) -/

def CTA_TERMS : List String :=
  ["buy now", "shop now", "order now", "get yours now", "grab it now", "grab yours",
   "add to cart", "add it to your cart",
   "tap the link", "click the link", "hit the link",
   "check out", "checkout now",
   "use the coupon", "apply coupon", "redeem", "claim offer",
   "follow us", "like and share", "subscribe", "turn on notifications"]

def DEAL_TERMS : List String :=
  ["flash sale", "bundle deal", "bundle", "special offer", "exclusive deal",
   "free shipping", "buy one get one", "bogo", "gift with purchase",
   "discount", "coupon", "promo code", "use code", "save", "save up to"]

def URGENCY_TERMS : List String :=
  ["limited time", "last chance", "only today", "today only", "act fast",
   "while supplies last", "limited stock", "low stock", "now or never",
   "don’t miss out", "dont miss out"]

/-- The six `CTA_REGEX` patterns, compiled to the engine above.
`add\s+(?:it\s+to\s+)?(?:your\s+)?cart` -/
def ctaRe1 : RE :=
  reSeq [litS "add", .wsPlus, .opt (reSeq [litS "it", .wsPlus, litS "to", .wsPlus]),
    .opt (reSeq [litS "your", .wsPlus]), litS "cart"]

/-- `(?:tap|click|hit)\s+(?:the\s+)?link` -/
def ctaRe2 : RE :=
  reSeq [.alt (litS "tap") (.alt (litS "click") (litS "hit")), .wsPlus,
    .opt (reSeq [litS "the", .wsPlus]), litS "link"]

/-- `(?:go|head)\s+to\s+checkout` -/
def ctaRe3 : RE :=
  reSeq [.alt (litS "go") (litS "head"), .wsPlus, litS "to", .wsPlus, litS "checkout"]

/-- `(?:use|apply)\s+(?:the\s+)?(?:coupon|promo\s*code|code)` -/
def ctaRe4 : RE :=
  reSeq [.alt (litS "use") (litS "apply"), .wsPlus, .opt (reSeq [litS "the", .wsPlus]),
    .alt (litS "coupon") (.alt (reSeq [litS "promo", .wsStar, litS "code"]) (litS "code"))]

/-- `(?:buy|grab|get)\s+(?:it|yours)\s+now` -/
def ctaRe5 : RE :=
  reSeq [.alt (litS "buy") (.alt (litS "grab") (litS "get")), .wsPlus,
    .alt (litS "it") (litS "yours"), .wsPlus, litS "now"]

/-- `(?:check)\s*out\s+now` -/
def ctaRe6 : RE :=
  reSeq [litS "check", .wsStar, litS "out", .wsPlus, litS "now"]

def CTA_REGEX : List RE := [ctaRe1, ctaRe2, ctaRe3, ctaRe4, ctaRe5, ctaRe6]

def QUESTION_HEADS : List String :=
  ["what", "why", "how", "when", "where", "which", "who", "whom", "whose",
   "does", "do", "did", "is", "are", "can", "could", "would", "should"]

/-- `\b(\d+(\.\d+)?|\$\d+)\b` — the numeric answer pattern of
`detect_q_and_answers`. -/
def qaNumRe : RE :=
  reSeq [.wordB,
    .alt (reSeq [.digPlus, .opt (reSeq [litS ".", .digPlus])])
         (reSeq [litS "$", .digPlus]),
    .wordB]

/-- `\b(yes|yeah|yep|no|nope|sure)\b` — the acknowledgement answer pattern. -/
def qaAckRe : RE :=
  reSeq [.wordB,
    .alt (litS "yes") (.alt (litS "yeah") (.alt (litS "yep")
      (.alt (litS "no") (.alt (litS "nope") (litS "sure"))))),
    .wordB]

/-! ### Question / answer / CTA logic -/

/-- Maximal `[a-z0-9]+` tokens of the lower-cased text
(`_word_re.findall(text.lower())`). -/
def wordTokensGo : ℕ → List Char → List String
  | 0, _ => []
  | _ + 1, [] => []
  | fuel + 1, c :: rest =>
    if isTokChar c then
      String.mk ((c :: rest).takeWhile isTokChar) ::
        wordTokensGo fuel ((c :: rest).dropWhile isTokChar)
    else wordTokensGo fuel rest

def wordTokens (s : String) : List String :=
  wordTokensGo (s.data.length + 1) (pyLower s).data

/-- `is_question_like`: contains `?`, or starts with an interrogative head. -/
def is_question_like (text : String) : Bool :=
  if text.data.contains '?' then true
  else
    match wordTokens text with
    | [] => false
    | tok :: _ => QUESTION_HEADS.contains tok

/-- The answer test applied to a candidate reply segment's text. -/
def qaAnswerLike (text : String) : Bool :=
  regexSearch qaNumRe (pyLower text) || regexSearch qaAckRe (pyLower text)

/-- The inner `while` of `detect_q_and_answers`: walk the segments after the
question while they start within `max_gap` of the question's end; report
whether one of them looks like an answer. -/
def answerWithin (max_gap end_t : ℚ) : List Segment → Bool
  | [] => false
  | s :: rest =>
    if s.start - end_t ≤ max_gap then
      if qaAnswerLike s.text then true else answerWithin max_gap end_t rest
    else false

/-- `detect_q_and_answers(segments, max_gap)` → `(question count, answered count)`. -/
def detect_q_and_answers (segments : List Segment) (max_gap : ℚ) : ℕ × ℕ :=
  let qs := segments.enum.filter (fun p => is_question_like p.2.text)
  let answered := (qs.filter
    (fun p => answerWithin max_gap p.2.stop (segments.drop (p.1 + 1)))).length
  (qs.length, answered)

/-- `count_cta_hits_rich(text)` → `(cta_hits, deal_hits, urg_hits)`. -/
def count_cta_hits_rich (text : String) : ℕ × ℕ × ℕ :=
  let low := pyLower text
  (contains_any low CTA_TERMS + (CTA_REGEX.map (fun r => regexCount r low)).sum,
   contains_any low DEAL_TERMS,
   contains_any low URGENCY_TERMS)

/-- One 10-second timeline bucket of `build_timeline`. -/
structure TLBin where
  t : ℚ
  comments : ℕ
  cta : ℕ
  questions : ℕ
deriving DecidableEq

/-- Fold step of `build_timeline` over one segment. -/
def tlStep (window : ℚ) (nbins : ℕ) (acc : List TLBin × ℕ × ℕ) (s : Segment) :
    List TLBin × ℕ × ℕ :=
  let (bins, q_total, cta_total) := acc
  let bi := min (⌊s.stop / window⌋).toNat (nbins - 1)
  let bins := if is_question_like s.text then
      bins.set bi { bins.getD bi ⟨0,0,0,0⟩ with
        questions := (bins.getD bi ⟨0,0,0,0⟩).questions + 1 }
    else bins
  let q_total := if is_question_like s.text then q_total + 1 else q_total
  let cta := (count_cta_hits_rich s.text).1
  if cta ≠ 0 then
    (bins.set bi { bins.getD bi ⟨0,0,0,0⟩ with
        cta := (bins.getD bi ⟨0,0,0,0⟩).cta + cta },
     q_total, cta_total + cta)
  else (bins, q_total, cta_total)

/-- `build_timeline(segments, window)` →
`(bins, question_ratio, cta_total)`.  (The source indexes `bins[-1]` and
would raise when the last segment ends at time ≤ 0; that crash case is outside
the model, which quantifies over well-formed positive-time segments.) -/
def build_timeline (segments : List Segment) (window : ℚ) : List TLBin × ℚ × ℕ :=
  match segments.getLast? with
  | none => ([], 0, 0)
  | some lastSeg =>
    let max_t := lastSeg.stop
    let nbins := (Int.ceil (max_t / window)).toNat
    let bins0 := (List.range nbins).map (fun i => TLBin.mk (((i : ℚ) + 1) * window) 0 0 0)
    let (bins, q_total, cta_total) := segments.foldl (tlStep window nbins) (bins0, 0, 0)
    (bins, (q_total : ℚ) / max 1 (segments.length : ℚ), cta_total)

/-! ### Baseline remap and compliance score (`text_language.py`) -/

def BASELINE : ℚ := 60
def MAX_BONUS : ℚ := 40
def MAX_PENALTY : ℚ := 20

/-- `remap_with_baseline(raw_score)`. -/
def remap_with_baseline (raw_score : ℚ) : ℚ :=
  let r := max 0 (min 100 raw_score) / 100
  let mapped := (BASELINE - MAX_PENALTY) + (MAX_PENALTY + MAX_BONUS) * r
  max 0 (min 100 mapped)

/-- `ACC_EXP_K = 0.35`. -/
noncomputable def ACC_EXP_K : ℝ := 35 / 100

/-- `score_compliance_from_hits_exp(hits) = clamp(100 * exp(-k * max(0, hits)))`. -/
noncomputable def score_compliance_from_hits_exp (hits : ℤ) : ℝ :=
  max 0 (min 100 (100 * Real.exp (-ACC_EXP_K * ((max 0 hits : ℤ) : ℝ))))

/-! ## Emotion track (`emotion_analysis/emotion_analysis.py`)

The per-frame series are exact rationals; the normalization / scoring chain
lives in `ℝ` because of the gamma power and exponential decay. -/

/-- `np.percentile(x, q)` with the default linear interpolation. -/
def percentile (xs : List ℚ) (q : ℚ) : ℚ :=
  let a := xs.insertionSort (· ≤ ·)
  if a.length = 0 then 0
  else
    let pos := q / 100 * ((a.length : ℚ) - 1)
    let i := (⌊pos⌋).toNat
    let frac := pos - (i : ℚ)
    let x0 := a.getD i 0
    let x1 := a.getD (i + 1) x0
    x0 + frac * (x1 - x0)

/-- `adapt_norm(x, p_lo, p_hi, floor, ceil, gamma)`: percentile-window linear
map with gamma compression; degenerates to the constant midpoint when the
window is non-finite (impossible in the exact model) or not wider than 1e-6. -/
noncomputable def adapt_norm (p_lo p_hi floorV ceilV : ℚ) (gamma : ℝ)
    (x : List ℚ) : List ℝ :=
  if x = [] then []
  else
    let lo := percentile x p_lo
    let hi := percentile x p_hi
    if hi ≤ lo + 1/1000000 then
      List.replicate x.length (((floorV + ceilV) * (1/2) : ℚ) : ℝ)
    else
      x.map (fun v =>
        let z : ℚ := min 1 (max 0 ((v - lo) / (hi - lo)))
        let zg : ℝ := (z : ℝ) ^ gamma
        min 1 (max 0 ((floorV : ℝ) + ((ceilV : ℝ) - (floorV : ℝ)) * zg)))

/-- Running-window loop of `moving_avg` (`deque` of at most `k` elements,
running sum, emit `sum / window length`). -/
noncomputable def movingAvgGo (k : ℕ) : ℝ → List ℝ → List ℝ → List ℝ
  | _, _, [] => []
  | s, q, x :: rest =>
    let q1 := q ++ [x]
    let s1 := s + x
    let q2 := if q1.length > k then q1.drop 1 else q1
    let s2 := if q1.length > k then s1 - q1.headD 0 else s1
    (s2 / (q2.length : ℝ)) :: movingAvgGo k s2 q2 rest

/-- `moving_avg(arr, k)`: identity for `k ≤ 1` or empty input. -/
noncomputable def moving_avg (arr : List ℝ) (k : ℕ) : List ℝ :=
  if k ≤ 1 ∨ arr.length = 0 then arr else movingAvgGo k 0 [] arr

/-- `topk_mean_rowwise` applied to one row: mean of the `k` largest entries
(`np.sort` ascending, take the trailing `k`).  The comparison on `ℝ` uses
Mathlib's classical decidability of the linear order. -/
noncomputable def topk_mean_row (row : List ℝ) (k : ℕ) : ℝ :=
  let k1 := max 1 (min k row.length)
  let sorted := row.insertionSort (· ≤ ·)
  (sorted.drop (row.length - k1)).sum / (k1 : ℝ)

/-- Inner fold of `peak_hold`. -/
noncomputable def peakHoldGo (decay : ℝ) : ℝ → List ℝ → List ℝ
  | _, [] => []
  | peak, x :: rest =>
    let p := max x (peak * decay)
    p :: peakHoldGo decay p rest

/-- `peak_hold(series, tau_s, fps)` with `decay = exp(-1/(tau*fps))`. -/
noncomputable def peak_hold (series : List ℝ) (tau_s fps : ℝ) : List ℝ :=
  peakHoldGo (Real.exp (-1 / max (tau_s * max fps (1/1000000)) (1/1000000))) 0 series

/-- `EmotionConfig` dataclass (`emotion_config.py`), restricted to the fields
the analysis reads.  `calibration_mode`, `score_floor`, `score_ceiling`,
`calib_gain`, `calib_bias`, `target_mean` and `target_strength` are absent
from the dataclass and resolved by `getattr(..., default)` in
`calibrate_score`; they appear here with those `getattr` defaults. -/
structure EmotionConfig where
  sample_fps : ℚ := 1
  smooth_window_s : ℚ := 12/10
  autoscale_enabled : Bool := true
  w_valence : ℚ := 55/100
  w_energy : ℚ := 45/100
  w_smile : ℚ := 6/10
  w_eye_open : ℚ := 4/10
  low_valence_thresh : ℚ := 4/10
  high_valence_thresh : ℚ := 7/10
  low_energy_thresh : ℚ := 4/10
  high_energy_thresh : ℚ := 7/10
  min_span_s : ℚ := 4
  calibration_mode : String := "none"
  score_floor : ℚ := 0
  score_ceiling : ℚ := 100
  calib_gain : ℚ := 1
  calib_bias : ℚ := 0
  target_mean : ℚ := 8/10
  target_strength : ℚ := 65/100
deriving DecidableEq

/-- The default `EmotionConfig()`. -/
def defaultEmotionConfig : EmotionConfig := {}

/-- `calibrate_score(base_mean, cfg)`: optional affine / pull-to-target
transform, clamped to `[score_floor, score_ceiling]/100`, scaled to 0–100. -/
noncomputable def calibrate_score (base_mean : ℝ) (cfg : EmotionConfig) : ℝ :=
  let floorv : ℝ := (cfg.score_floor : ℝ) / 100
  let ceilv : ℝ := (cfg.score_ceiling : ℝ) / 100
  let base : ℝ := min 1 (max 0 base_mean)
  let y : ℝ :=
    if cfg.calibration_mode = "affine" then (cfg.calib_gain : ℝ) * base + (cfg.calib_bias : ℝ)
    else if cfg.calibration_mode = "target_mean" then
      (1 - (cfg.target_strength : ℝ)) * base + (cfg.target_strength : ℝ) * (cfg.target_mean : ℝ)
    else base
  100 * min ceilv (max floorv y)

/-- The raw geometric metrics `extract_face_metrics` yields for one frame with
a detected face (the mediapipe pipeline is the external collaborator). -/
structure FaceMetrics where
  smile : ℚ
  eye_open : ℚ
  mouth_open : ℚ
  head_motion : ℚ
deriving DecidableEq

/-- One emotion timeline record. -/
structure EmoPoint where
  t : ℚ
  valence : ℝ
  energy : ℝ
  smile : ℝ
  eye : ℝ
  mouth : ℝ
  head : ℝ

/-- The emotion `ScoreBundle` (`perf` timing omitted as wall-clock). -/
structure EmotionBlock where
  score : ℝ
  valence_mean : ℝ
  energy_mean : ℝ
  timeline : List EmoPoint
  highlights : List Highlight

/-- `np.mean` over `ℝ`. -/
noncomputable def meanR (l : List ℝ) : ℝ := l.sum / (l.length : ℝ)

/-- Python `round(x, 1)` over `ℝ`. -/
noncomputable def roundTo1R (x : ℝ) : ℝ := ((round (x * 10) : ℤ) : ℝ) / 10

/-- Python `round(x, 3)` over `ℝ`. -/
noncomputable def roundTo3R (x : ℝ) : ℝ := ((round (x * 1000) : ℤ) : ℝ) / 1000

/-- `np.abs(np.diff(l, prepend=l[:1]))`: first entry 0, then successive
absolute differences. -/
noncomputable def absDiffPrepend (l : List ℝ) : List ℝ :=
  match l with
  | [] => []
  | x :: _ => List.zipWith (fun a b => |b - a|) (x :: l) l

/-- `duration = total_frames / fps` (0 when the frame count is unknown). -/
def emotionDuration (fps : ℚ) (total_frames : ℕ) : ℚ :=
  if total_frames > 0 then (total_frames : ℚ) / max fps (1/1000000) else 0

/-- Duration-based sample-rate cap of `analyze_emotion` (its inline autoscale). -/
def emotionSampleFps (cfg : EmotionConfig) (duration : ℚ) : ℚ :=
  if cfg.autoscale_enabled then
    let mins := duration / 60
    if mins ≥ 60 then min cfg.sample_fps (1/2)
    else if mins ≥ 30 then min cfg.sample_fps 1
    else cfg.sample_fps
  else cfg.sample_fps

/-- `step = max(int(round(fps / max(sample_fps, 1e-6))), 1)`. -/
def emotionStep (fps sample_fps : ℚ) : ℕ :=
  max (round (fps / max sample_fps (1/1000000)) : ℤ).toNat 1

/-- Decoded frames sampled by the loop (`i % step == 0`). -/
def emotionSampled (frames : List (Option FaceMetrics)) (step : ℕ) : ℕ :=
  (frames.enum.filter (fun p => p.1 % step = 0)).length

/-- `(t, metrics)` pairs collected for sampled frames with a detected face
(the `raw_*` lists of the loop, fused). -/
def emotionValid (frames : List (Option FaceMetrics)) (step : ℕ) (fps : ℚ) :
    List (ℚ × FaceMetrics) :=
  frames.enum.filterMap (fun p =>
    if p.1 % step = 0 then p.2.map (fun m => ((p.1 : ℚ) / max fps (1/1000000), m))
    else none)

/-- The degenerate block returned when no sampled frame had a detectable face:
score 0, empty timeline, one explanatory highlight. -/
def noFaceEmotionBlock : EmotionBlock :=
  { score := 0, valence_mean := 0, energy_mean := 0, timeline := []
    highlights := [⟨0, 0, "未检测到人脸或人脸覆盖过低"⟩] }

/-- The non-degenerate tail of `analyze_emotion` (normalization, valence /
energy fusion, smoothing, calibration, highlight extraction). -/
noncomputable def emotionFullBlock (cfg : EmotionConfig) (sample_fps : ℚ)
    (valid : List (ℚ × FaceMetrics)) (sampled_frames : ℕ) : EmotionBlock :=
  let raw_t := valid.map (·.1)
  let smile_n := adapt_norm 5 85 (1/5) (49/50) (85/100) (valid.map (fun p => p.2.smile))
  let eye_n := adapt_norm 5 85 (1/5) (49/50) (85/100) (valid.map (fun p => p.2.eye_open))
  let mouth_n := adapt_norm 5 85 (1/5) (49/50) (85/100) (valid.map (fun p => p.2.mouth_open))
  let head_n := adapt_norm 5 85 (1/5) (49/50) (85/100) (valid.map (fun p => p.2.head_motion))
  let eye_var := absDiffPrepend eye_n
  let mouth_var := absDiffPrepend mouth_n
  let valence := List.zipWith
    (fun a b => (cfg.w_smile : ℝ) * a + (cfg.w_eye_open : ℝ) * b) smile_n eye_n
  let c_mouth := List.zipWith (fun a b => max a ((13/10) * b)) mouth_n mouth_var
  let energy_core := List.zipWith
    (fun a p => topk_mean_row [a, p.1, p.2] 2) c_mouth (head_n.zip eye_var)
  let hold := peak_hold energy_core 1 (sample_fps : ℝ)
  let energy := List.zipWith
    (fun e h => min 1 (max 0 ((6/10) * e + (4/10) * h))) energy_core hold
  let k := max 1 (round (cfg.smooth_window_s * sample_fps) : ℤ).toNat
  let valence_s := (moving_avg valence k).map (fun v => min 1 (max 0 v))
  let energy_s := (moving_avg energy k).map (fun e => min 1 (max 0 e))
  let base_mean := (cfg.w_valence : ℝ) * meanR valence_s + (cfg.w_energy : ℝ) * meanR energy_s
  let score := calibrate_score base_mean cfg
  let low_val_mask := valence_s.map (fun v => decide (v < (cfg.low_valence_thresh : ℝ)))
  let high_val_mask := valence_s.map (fun v => decide (v > (cfg.high_valence_thresh : ℝ)))
  let low_en_mask := energy_s.map (fun e => decide (e < (cfg.low_energy_thresh : ℝ)))
  let high_en_mask := energy_s.map (fun e => decide (e > (cfg.high_energy_thresh : ℝ)))
  let _ := high_val_mask
  let highlights :=
    (compress_runs raw_t high_en_mask cfg.min_span_s).map
      (fun p => Highlight.mk p.1 p.2 "高能量片段") ++
    (compress_runs raw_t low_en_mask cfg.min_span_s).map
      (fun p => Highlight.mk p.1 p.2 "能量偏低") ++
    (compress_runs raw_t low_val_mask cfg.min_span_s).map
      (fun p => Highlight.mk p.1 p.2 "积极度偏低")
  let timeline := (List.range raw_t.length).map (fun i =>
    EmoPoint.mk (raw_t.getD i 0) (valence_s.getD i 0) (energy_s.getD i 0)
      (smile_n.getD i 0) (eye_n.getD i 0) (mouth_n.getD i 0) (head_n.getD i 0))
  let detection_rate := (valid.length : ℚ) / max (sampled_frames : ℚ) 1
  let highlights := highlights ++
    (if detection_rate < 1/5 then [⟨0, 0, "人脸检测覆盖低(<20%)，结果可能不稳定"⟩] else [])
  { score := roundTo1R score
    valence_mean := roundTo3R (meanR valence_s)
    energy_mean := roundTo3R (meanR energy_s)
    timeline := timeline
    highlights := highlights }

/-- `analyze_emotion` from the point where the video has been opened: `fps`
and `total_frames` are the reported metadata, `frames` the decodable frames in
order, each abstracted to the face metrics mediapipe would extract (`none`
when no face / landmarks are found, in which case the loop skips the frame). -/
noncomputable def analyze_emotion (fps : ℚ) (total_frames : ℕ)
    (frames : List (Option FaceMetrics)) (cfg : EmotionConfig) : EmotionBlock :=
  let sample_fps := emotionSampleFps cfg (emotionDuration fps total_frames)
  let step := emotionStep fps sample_fps
  let valid := emotionValid frames step fps
  if valid.length = 0 then noFaceEmotionBlock
  else emotionFullBlock cfg sample_fps valid (emotionSampled frames step)

/-- Scene-loop invariant: no logo frame was ever counted and every timeline
entry reports no detected text. -/
def CleanState (st : ScanState) : Prop :=
  st.ocr_logo_frames = 0 ∧ ∀ e ∈ st.timeline, e.logo = false ∧ e.text_area = 0

/-- Scene-loop invariant: counter sanity (logo hits among OCR attempts, text
area accumulated from non-negative ratios). -/
def CounterInv (st : ScanState) : Prop :=
  st.ocr_logo_frames ≤ st.ocr_frames ∧ 0 ≤ st.ocr_area_sum

/-- All six sub-scores lie in `[0, 100]`. -/
def SubScoresIn0100 (ss : SceneSubScores) : Prop :=
  (0 ≤ ss.exposure ∧ ss.exposure ≤ 100) ∧
  (0 ≤ ss.saturation ∧ ss.saturation ≤ 100) ∧
  (0 ≤ ss.contrast ∧ ss.contrast ≤ 100) ∧
  (0 ≤ ss.sharp ∧ ss.sharp ≤ 100) ∧
  (0 ≤ ss.color ∧ ss.color ≤ 100) ∧
  (0 ≤ ss.logo ∧ ss.logo ≤ 100)

/-- The three-segment transcript of the interaction scenario. -/
def c9Segments : List Segment :=
  [⟨0, 2, "do you like this product?"⟩, ⟨3, 5, "yes i love it"⟩,
   ⟨10, 12, "buy now buy now"⟩]

/-! ## Helper lemmas -/

/-- The compliance exponential never exceeds 1 (its argument is ≤ 0). -/
lemma compliance_exp_le_one (h : ℤ) :
    Real.exp (-ACC_EXP_K * ((max 0 h : ℤ) : ℝ)) ≤ 1 := by
  rw [← Real.exp_zero]
  apply Real.exp_le_exp.mpr
  have h0 : (0:ℝ) ≤ ((max 0 h : ℤ) : ℝ) := by exact_mod_cast le_max_left 0 h
  have hk : (0:ℝ) < ACC_EXP_K := by norm_num [ACC_EXP_K]
  nlinarith

/-- The `[0, 100]` clamp in the compliance score never changes the value of
the exponential. -/
lemma score_compliance_eq_exp (h : ℤ) :
    score_compliance_from_hits_exp h
      = 100 * Real.exp (-ACC_EXP_K * ((max 0 h : ℤ) : ℝ)) := by
  have h1 : 100 * Real.exp (-ACC_EXP_K * ((max 0 h : ℤ) : ℝ)) ≤ 100 := by
    nlinarith [compliance_exp_le_one h]
  have h2 : (0:ℝ) ≤ 100 * Real.exp (-ACC_EXP_K * ((max 0 h : ℤ) : ℝ)) := by positivity
  unfold score_compliance_from_hits_exp
  rw [min_eq_right h1, max_eq_right h2]

/-- OCR degrades to no text detected when the backend is unavailable or the
per-frame call raises. -/
lemma ocr_on_frame_degenerate (o : OcrOutcome)
    (h : o = .unavailable ∨ o = .failure) : ocr_on_frame o = ([], 0) := by
  rcases h with rfl | rfl <;> rfl

/-- With no recognized words there is never a keyword hit. -/
lemma logo_hit_empty (kws : List String) : logo_hit_by_keywords [] kws = false := by
  unfold logo_hit_by_keywords
  split
  · rfl
  · simp

/-- The text-area ratio returned by OCR is never negative. -/
lemma ocr_area_nonneg (o : OcrOutcome) : 0 ≤ (ocr_on_frame o).2 := by
  cases o with
  | unavailable => norm_num [ocr_on_frame]
  | failure => norm_num [ocr_on_frame]
  | success rows imgArea =>
    simp only [ocr_on_frame]
    split
    · apply div_nonneg _ (le_of_lt (by assumption))
      apply List.sum_nonneg
      intro a ha
      obtain ⟨r, _, rfl⟩ := List.mem_map.mp ha
      positivity
    · exact le_rfl

lemma scanFrame_clean (cfg : SceneConfig) (kws : List String) (fps : ℚ) (step : ℕ)
    (st : ScanState) (i : ℕ) (f : SceneFrame)
    (hf : f.ocr = .unavailable ∨ f.ocr = .failure) (h : CleanState st) :
    CleanState (scanFrame cfg kws fps step st i f) := by
  unfold scanFrame
  split
  · exact h
  · simp only [ocr_on_frame_degenerate f.ocr hf]
    split
    · -- do_ocr branch with degraded OCR output
      refine ⟨by simpa [logo_hit_empty] using h.1, ?_⟩
      intro e he
      rcases List.mem_append.mp he with hmem | hmem
      · exact h.2 e hmem
      · simp only [List.mem_singleton] at hmem
        subst hmem
        constructor
        · by_cases hk : ¬kws.isEmpty <;> simp [hk, logo_hit_empty]
        · rfl
    · refine ⟨h.1, ?_⟩
      intro e he
      rcases List.mem_append.mp he with hmem | hmem
      · exact h.2 e hmem
      · simp only [List.mem_singleton] at hmem
        subst hmem
        exact ⟨rfl, rfl⟩

lemma scanFrame_counterInv (cfg : SceneConfig) (kws : List String) (fps : ℚ)
    (step : ℕ) (st : ScanState) (i : ℕ) (f : SceneFrame) (h : CounterInv st) :
    CounterInv (scanFrame cfg kws fps step st i f) := by
  obtain ⟨h1, h2⟩ := h
  unfold scanFrame
  split
  · exact ⟨h1, h2⟩
  · rcases hw : ocr_on_frame f.ocr with ⟨words, ta⟩
    have hta : 0 ≤ ta := by
      have := ocr_area_nonneg f.ocr
      rw [hw] at this
      exact this
    simp only [hw]
    split
    · refine ⟨?_, add_nonneg h2 hta⟩
      dsimp only
      split <;> split <;> omega
    · exact ⟨h1, h2⟩

/-- The frame loop preserves `CleanState` when OCR degrades on every frame. -/
lemma sceneScan_clean (cfg : SceneConfig) (kws : List String) (fps : ℚ) (step : ℕ)
    (frames : List SceneFrame)
    (h : ∀ f ∈ frames, f.ocr = .unavailable ∨ f.ocr = .failure) :
    CleanState (sceneScan cfg kws fps step frames) := by
  unfold sceneScan
  refine List.foldlRecOn _ _ _ ⟨rfl, by simp⟩ ?_
  intro st hst p hp
  apply scanFrame_clean
  · have hmem : p.2 ∈ frames.enum.map Prod.snd := List.mem_map_of_mem Prod.snd hp
    rw [List.enum_map_snd] at hmem
    exact h p.2 hmem
  · exact hst

/-- The frame loop always satisfies the counter invariant. -/
lemma sceneScan_counterInv (cfg : SceneConfig) (kws : List String) (fps : ℚ)
    (step : ℕ) (frames : List SceneFrame) :
    CounterInv (sceneScan cfg kws fps step frames) := by
  unfold sceneScan
  refine List.foldlRecOn _ _ _ ⟨le_rfl, le_rfl⟩ ?_
  intro st hst p _
  exact scanFrame_counterInv _ _ _ _ _ _ _ hst

/-- `band_score` stays in `[0, 100]` for every input whenever `0 < lo` and
`hi < 255` (true of both default bands). -/
lemma band_score_mem (lo hi x : ℚ) (h0 : 0 < lo) (hh : hi < 255) :
    0 ≤ band_score x lo hi ∧ band_score x lo hi ≤ 100 := by
  unfold band_score
  split
  · rename_i hxlo
    refine ⟨le_max_left _ _, max_le (by norm_num) ?_⟩
    have hd : (0:ℚ) < max lo (1/1000000) := lt_max_iff.mpr (Or.inl h0)
    have hxd : x ≤ max lo (1/1000000) := le_trans hxlo (le_max_left _ _)
    have hr : x / max lo (1/1000000) ≤ 1 := (div_le_one hd).mpr hxd
    nlinarith
  · split
    · rename_i hxhi
      refine ⟨le_max_left _ _, max_le (by norm_num) ?_⟩
      have hd : (0:ℚ) < max (255 - hi) (1/1000000) := lt_max_iff.mpr (Or.inl (by linarith))
      have hxd : 255 - x ≤ max (255 - hi) (1/1000000) := le_trans (by linarith) (le_max_left _ _)
      have hr : (255 - x) / max (255 - hi) (1/1000000) ≤ 1 := (div_le_one hd).mpr hxd
      nlinarith
    · rename_i hxlo hxhi
      push_neg at hxlo hxhi
      have hdpos : (0:ℚ) < max (hi - lo) (1/1000000) := lt_max_iff.mpr (Or.inr (by norm_num))
      have h1 : 0 ≤ 20 * (x - lo) / max (hi - lo) (1/1000000) :=
        div_nonneg (by nlinarith) hdpos.le
      have h2 : x - lo ≤ max (hi - lo) (1/1000000) := le_trans (by linarith) (le_max_left _ _)
      have h3 : 20 * (x - lo) / max (hi - lo) (1/1000000) ≤ 20 := by
        rw [div_le_iff₀ hdpos]; nlinarith
      constructor <;> linarith

/-- `linear_score` stays in `[0, 100]` whenever `lo ≤ hi`. -/
lemma linear_score_mem (lo hi x : ℚ) (h : lo ≤ hi) :
    0 ≤ linear_score x lo hi ∧ linear_score x lo hi ≤ 100 := by
  simp only [linear_score]
  have hd : (0:ℚ) < max (hi - lo) (1/1000000) := lt_max_iff.mpr (Or.inr (by norm_num))
  have h1 : lo ≤ max lo (min hi x) := le_max_left _ _
  have h2 : max lo (min hi x) ≤ hi := max_le h (min_le_left _ _)
  constructor
  · exact div_nonneg (by nlinarith) hd.le
  · have h3 : max lo (min hi x) - lo ≤ max (hi - lo) (1/1000000) :=
      le_trans (by linarith) (le_max_left _ _)
    rw [div_le_iff₀ hd]; nlinarith

/-- `inverse_score` stays in `[0, 100]` unconditionally. -/
lemma inverse_score_mem (x good bad : ℚ) :
    0 ≤ inverse_score x good bad ∧ inverse_score x good bad ≤ 100 := by
  unfold inverse_score
  split
  · norm_num
  · split
    · norm_num
    · rename_i hg hb
      push_neg at hg hb
      have hd : (0:ℚ) < max (bad - good) (1/1000000) := lt_max_iff.mpr (Or.inr (by norm_num))
      constructor
      · exact div_nonneg (by nlinarith) hd.le
      · have h1 : bad - x ≤ max (bad - good) (1/1000000) := le_trans (by linarith) (le_max_left _ _)
        rw [div_le_iff₀ hd]; nlinarith

/-- Rounding to one decimal preserves `[0, 100]`. -/
lemma roundTo1_mem (x : ℚ) (h0 : 0 ≤ x) (h1 : x ≤ 100) :
    0 ≤ roundTo1 x ∧ roundTo1 x ≤ 100 := by
  unfold roundTo1
  constructor
  · apply div_nonneg _ (by norm_num)
    have hz : (0:ℤ) ≤ round (x * 10) := by
      rw [round_eq]
      exact Int.le_floor.mpr (by push_cast; linarith)
    exact_mod_cast hz
  · have hz : round (x * 10) ≤ 1000 := by
      rw [round_eq]
      have h2 : (⌊x * 10 + 1/2⌋ : ℤ) ≤ ⌊(1000:ℚ) + 1/2⌋ := Int.floor_le_floor (by linarith)
      have h3 : (⌊(1000:ℚ) + 1/2⌋ : ℤ) = 1000 :=
        Int.floor_eq_iff.mpr ⟨by norm_num, by norm_num⟩
      omega
    have hq : ((round (x * 10) : ℤ) : ℚ) ≤ 1000 := by exact_mod_cast hz
    linarith

/-- With sane counters the visibility ratio is a genuine ratio in `[0, 1]`. -/
lemma logoVisibleRatio_mem (st : ScanState) (h : CounterInv st) :
    0 ≤ logoVisibleRatio st ∧ logoVisibleRatio st ≤ 1 := by
  unfold logoVisibleRatio
  split
  · constructor
    · positivity
    · rw [div_le_one (lt_max_iff.mpr (Or.inr one_pos))]
      calc (st.ocr_logo_frames : ℚ) ≤ (st.ocr_frames : ℚ) := by exact_mod_cast h.1
        _ ≤ max (st.ocr_frames : ℚ) 1 := le_max_left _ _
  · norm_num

/-- With sane counters the mean text area is non-negative. -/
lemma logoAreaMean_nonneg (st : ScanState) (h : CounterInv st) :
    0 ≤ logoAreaMean st := by
  unfold logoAreaMean
  split
  · exact div_nonneg h.2 (le_trans zero_le_one (le_max_right _ _))
  · exact le_rfl

/-- Autoscaling only rewrites the sampling rate and OCR period. -/
lemma autoscale_config_fields (cfg : SceneConfig) (d : ℚ) :
    ∃ sf oe, autoscale_config cfg d
      = { cfg with sample_fps := sf, ocr_every_s := oe } := by
  simp only [autoscale_config]
  repeat' first
  | exact ⟨_, _, rfl⟩
  | split

/-- Sub-score bounds for any config with sane bands and any state with sane
counters. -/
lemma sceneSubScores_mem (cfg : SceneConfig) (st : ScanState) (hcnt : CounterInv st)
    (hb0 : 0 < cfg.brightness_lo) (hb1 : cfg.brightness_hi < 255)
    (hs0 : 0 < cfg.saturation_lo) (hs1 : cfg.saturation_hi < 255)
    (hc : cfg.contrast_lo ≤ cfg.contrast_hi)
    (hsh : cfg.sharpness_lo ≤ cfg.sharpness_hi) :
    SubScoresIn0100 (sceneSubScores cfg st) := by
  refine ⟨band_score_mem _ _ _ hb0 hb1, band_score_mem _ _ _ hs0 hs1,
    linear_score_mem _ _ _ hc, linear_score_mem _ _ _ hsh,
    inverse_score_mem _ _ _, ?_⟩
  have hr := logoVisibleRatio_mem st hcnt
  have ha := logoAreaMean_nonneg st hcnt
  have hm1 : 0 ≤ min 1 (logoVisibleRatio st / (30/100)) :=
    le_min (by norm_num) (div_nonneg hr.1 (by norm_num))
  have hm2 : min 1 (logoVisibleRatio st / (30/100)) ≤ 1 := min_le_left _ _
  have hm3 : 0 ≤ min 1 (logoAreaMean st / (5/100)) :=
    le_min (by norm_num) (div_nonneg ha (by norm_num))
  have hm4 : min 1 (logoAreaMean st / (5/100)) ≤ 1 := min_le_left _ _
  simp only [sceneSubScores]
  constructor <;> nlinarith

/-- The weighted final score stays in `[0, 100]` under the default weights. -/
lemma sceneFinalScore_mem (cfg : SceneConfig) (ss : SceneSubScores)
    (hw1 : cfg.w_exposure = 30/100) (hw2 : cfg.w_sharpness = 25/100)
    (hw3 : cfg.w_contrast = 15/100) (hw4 : cfg.w_saturation = 10/100)
    (hw5 : cfg.w_colorcast = 10/100) (hw6 : cfg.w_logo = 10/100)
    (hss : SubScoresIn0100 ss) :
    0 ≤ sceneFinalScore cfg ss ∧ sceneFinalScore cfg ss ≤ 100 := by
  obtain ⟨⟨e1, e2⟩, ⟨s1, s2⟩, ⟨c1, c2⟩, ⟨p1, p2⟩, ⟨o1, o2⟩, ⟨l1, l2⟩⟩ := hss
  unfold sceneFinalScore
  rw [hw1, hw2, hw3, hw4, hw5, hw6]
  constructor <;> nlinarith

/-! ## Claim theorems -/

/-- **C7.** `remap_with_baseline` is monotone (non-decreasing) in its raw
input (in particular over `[0, 100]`), its output always lies in `[0, 100]`,
and with the defaults (baseline 60, max penalty 20, max bonus 40) it maps
0 to `BASELINE - MAX_PENALTY = 40` and 100 to `BASELINE + MAX_BONUS = 100`
exactly. -/
theorem remap_with_baseline_spec :
    (∀ x y : ℚ, x ≤ y → remap_with_baseline x ≤ remap_with_baseline y) ∧
    (∀ x : ℚ, 0 ≤ remap_with_baseline x ∧ remap_with_baseline x ≤ 100) ∧
    remap_with_baseline 0 = BASELINE - MAX_PENALTY ∧
    remap_with_baseline 100 = BASELINE + MAX_BONUS ∧
    remap_with_baseline 0 = 40 ∧ remap_with_baseline 100 = 100 := by
  refine ⟨?_, ?_, by with_unfolding_all decide, by with_unfolding_all decide,
    by with_unfolding_all decide, by with_unfolding_all decide⟩
  · intro x y h
    simp only [remap_with_baseline, BASELINE, MAX_PENALTY, MAX_BONUS]
    have h1 : max 0 (min 100 x) ≤ max 0 (min 100 y) :=
      max_le_max le_rfl (min_le_min le_rfl h)
    have h2 : (60 - 20 : ℚ) + (20 + 40) * (max 0 (min 100 x) / 100)
        ≤ (60 - 20 : ℚ) + (20 + 40) * (max 0 (min 100 y) / 100) := by linarith
    exact max_le_max le_rfl (min_le_min le_rfl h2)
  · intro x
    simp only [remap_with_baseline]
    exact ⟨le_max_left _ _, max_le (by norm_num) (min_le_left _ _)⟩

/-- Witness for C7: the monotonicity hypothesis discharged at `0 ≤ 1`. -/
theorem remap_with_baseline_spec_witness :
    (0:ℚ) ≤ 1 ∧ remap_with_baseline 0 ≤ remap_with_baseline 1 :=
  ⟨by norm_num, remap_with_baseline_spec.1 0 1 (by norm_num)⟩

/-- **C8.** The compliance score equals `100 * exp(-0.35 * hits)` exactly (the
clamp to `[0, 100]` never changes the exponential's value), is `100` at zero
hits, strictly decreasing in the hit count, and strictly positive for every
hit count. -/
theorem score_compliance_spec :
    score_compliance_from_hits_exp 0 = 100 ∧
    (∀ h1 h2 : ℤ, 0 ≤ h1 → h1 < h2 →
      score_compliance_from_hits_exp h2 < score_compliance_from_hits_exp h1) ∧
    (∀ h : ℤ, 0 < score_compliance_from_hits_exp h) ∧
    (∀ h : ℤ, score_compliance_from_hits_exp h
      = 100 * Real.exp (-ACC_EXP_K * ((max 0 h : ℤ) : ℝ))) := by
  refine ⟨?_, ?_, ?_, score_compliance_eq_exp⟩
  · rw [score_compliance_eq_exp, show (max 0 (0:ℤ)) = 0 from max_self 0]
    norm_num [Real.exp_zero]
  · intro h1 h2 hh1 hlt
    rw [score_compliance_eq_exp, score_compliance_eq_exp,
      max_eq_right hh1, max_eq_right (le_trans hh1 hlt.le)]
    have harg : -ACC_EXP_K * (h2:ℝ) < -ACC_EXP_K * (h1:ℝ) := by
      have hc : (h1:ℝ) < (h2:ℝ) := by exact_mod_cast hlt
      have hk : (0:ℝ) < ACC_EXP_K := by norm_num [ACC_EXP_K]
      nlinarith
    nlinarith [Real.exp_lt_exp.mpr harg]
  · intro h
    rw [score_compliance_eq_exp]
    positivity

/-- Witness for C8: strict decrease discharged at hit counts 0 < 1. -/
theorem score_compliance_spec_witness :
    ((0:ℤ) ≤ 0 ∧ (0:ℤ) < 1) ∧
      score_compliance_from_hits_exp 1 < score_compliance_from_hits_exp 0 :=
  ⟨⟨le_rfl, by norm_num⟩, score_compliance_spec.2.1 0 1 le_rfl (by norm_num)⟩

/-- **C2 (counterexample).** The claim says a mean brightness of 150 (inside
the default band (120, 180)) yields exposure sub-score 100; the code's
`band_score` gives `80 + 20 * (150-120)/60 = 90`, not 100. -/
theorem exposure_at_150_not_100 : band_score 150 120 180 ≠ 100 := by
  with_unfolding_all decide

/-- **C2 (amended).** With the default brightness band (120, 180): a uniform
sequence at brightness 150 has mean 150 and exposure sub-score exactly 90
(in-band scores lie strictly between 80 and 100, not at 100); at mean
brightness 50 the sub-score is strictly between 0 and 80; and below the band
the sub-score strictly decreases as brightness decreases toward 0. -/
theorem band_score_exposure_amended :
    (∀ n : ℕ, 0 < n → listMean (List.replicate n (150 : ℚ)) = 150) ∧
    band_score 150 120 180 = 90 ∧
    (80 < band_score 150 120 180 ∧ band_score 150 120 180 < 100) ∧
    (0 < band_score 50 120 180 ∧ band_score 50 120 180 < 80) ∧
    (∀ x y : ℚ, 0 ≤ y → y < x → x ≤ 120 →
      band_score y 120 180 < band_score x 120 180) := by
  refine ⟨?_, by with_unfolding_all decide, by with_unfolding_all decide,
    by with_unfolding_all decide, ?_⟩
  · intro n hn
    have hne : ((n:ℚ)) ≠ 0 := Nat.cast_ne_zero.mpr hn.ne'
    simp only [listMean, List.sum_replicate, List.length_replicate, nsmul_eq_mul]
    field_simp
  · intro x y hy hyx hx
    have hy' : y ≤ 120 := le_trans hyx.le hx
    simp only [band_score, if_pos hy', if_pos hx]
    have hm : max (120:ℚ) (1/1000000) = 120 := by norm_num
    rw [hm]
    have h1 : (0:ℚ) ≤ 100 * (y / 120) :=
      mul_nonneg (by norm_num) (div_nonneg hy (by norm_num))
    have h2 : (0:ℚ) ≤ 100 * (x / 120) :=
      mul_nonneg (by norm_num) (div_nonneg (le_trans hy hyx.le) (by norm_num))
    rw [max_eq_right h1, max_eq_right h2]
    linarith

/-- Witness for C2 (amended): the uniform-mean and monotonicity hypotheses
discharged at `n = 3` and brightness values 40 < 50. -/
theorem band_score_exposure_amended_witness :
    (0 < 3 ∧ listMean (List.replicate 3 (150 : ℚ)) = 150) ∧
    ((0:ℚ) ≤ 40 ∧ (40:ℚ) < 50 ∧ (50:ℚ) ≤ 120 ∧
      band_score 40 120 180 < band_score 50 120 180) :=
  ⟨⟨by norm_num, band_score_exposure_amended.1 3 (by norm_num)⟩,
   by norm_num, by norm_num, by norm_num,
   band_score_exposure_amended.2.2.2.2 50 40 (by norm_num) (by norm_num) (by norm_num)⟩

/-- **C10 (counterexample).** The claim asserts
`band_score(x, lo, hi) = 80 + 20 * (x-lo)/(hi-lo)` for every band
`0 < lo < hi < 255` and every in-band `x`; the code divides by
`max(hi-lo, 1e-6)`, so for the band `(1, 1 + 1e-7)` at its midpoint the two
differ (81 versus the claimed 90). -/
theorem band_score_narrow_band_counterexample :
    band_score (1 + 1/20000000) 1 (1 + 1/10000000)
      ≠ 80 + 20 * ((1 + 1/20000000 : ℚ) - 1) / ((1 + 1/10000000 : ℚ) - 1) := by
  with_unfolding_all decide

/-- **C10 (amended).** For every band `0 < lo < hi < 255` and every strictly
in-band `x`: the sub-score is strictly between 80 and 100, and whenever the
band is at least 1e-6 wide (true of every default band) it equals
`80 + 20 * (x - lo) / (hi - lo)` exactly. -/
theorem band_score_in_band_amended (lo hi x : ℚ) (h0 : 0 < lo) (hlh : lo < hi)
    (hh : hi < 255) (hxl : lo < x) (hxh : x < hi) :
    (1/1000000 ≤ hi - lo → band_score x lo hi = 80 + 20 * (x - lo) / (hi - lo)) ∧
    80 < band_score x lo hi ∧ band_score x lo hi < 100 := by
  have hnot1 : ¬ x ≤ lo := not_le.mpr hxl
  have hnot2 : ¬ x ≥ hi := not_le.mpr hxh
  simp only [band_score, if_neg hnot1, if_neg hnot2]
  have hdpos : (0:ℚ) < max (hi - lo) (1/1000000) :=
    lt_of_lt_of_le (by norm_num) (le_max_right _ _)
  have hdge : hi - lo ≤ max (hi - lo) (1/1000000) := le_max_left _ _
  refine ⟨fun hwide => by rw [max_eq_left hwide], ?_, ?_⟩
  · have : 0 < 20 * (x - lo) / max (hi - lo) (1/1000000) :=
      div_pos (by linarith) hdpos
    linarith
  · have hlt : 20 * (x - lo) < 20 * max (hi - lo) (1/1000000) := by nlinarith
    have : 20 * (x - lo) / max (hi - lo) (1/1000000) < 20 := by
      rw [div_lt_iff hdpos]; nlinarith
    linarith

/-- Witness for C10 (amended): discharged at the default brightness band
`(120, 180)` with `x = 150`. -/
theorem band_score_in_band_amended_witness :
    ((0:ℚ) < 120 ∧ (120:ℚ) < 180 ∧ (180:ℚ) < 255 ∧ (120:ℚ) < 150 ∧ (150:ℚ) < 180) ∧
    ((1:ℚ)/1000000 ≤ 180 - 120 →
      band_score 150 120 180 = 80 + 20 * ((150:ℚ) - 120) / (180 - 120)) ∧
    80 < band_score 150 120 180 ∧ band_score 150 120 180 < 100 :=
  ⟨⟨by norm_num, by norm_num, by norm_num, by norm_num, by norm_num⟩,
   band_score_in_band_amended 120 180 150 (by norm_num) (by norm_num)
     (by norm_num) (by norm_num) (by norm_num)⟩

/-- **C6.** If the 5th-to-85th-percentile window of a non-empty series is
degenerate (width below 1e-6, as for any constant series), `adapt_norm` with
the defaults (floor 0.20, ceil 0.98, gamma 0.85) returns the constant midpoint
`(floor + ceil)/2 = 0.59` at every sample position; the branch dividing by
`hi - lo` is not taken (and in this exact-arithmetic model no NaN exists to
return; the non-finite guard of the source is unreachable). -/
theorem adapt_norm_degenerate_spec (xs : List ℚ) (hne : xs ≠ [])
    (hdeg : percentile xs 85 - percentile xs 5 < 1/1000000) :
    adapt_norm 5 85 (1/5) (49/50) (85/100) xs
      = List.replicate xs.length (((59:ℚ)/100 : ℝ)) := by
  unfold adapt_norm
  rw [if_neg hne, if_pos (by linarith)]
  have hmid : ((1/5 + 49/50) * (1/2) : ℚ) = 59/100 := by norm_num
  rw [hmid]
  congr 1
  push_cast
  norm_num

/-- Witness for C6: the constant series `[3, 3, 3]` has a degenerate
percentile window and normalizes to three copies of 0.59. -/
theorem adapt_norm_degenerate_spec_witness :
    (([(3:ℚ), 3, 3] ≠ []) ∧
      percentile [(3:ℚ), 3, 3] 85 - percentile [(3:ℚ), 3, 3] 5 < 1/1000000) ∧
    adapt_norm 5 85 (1/5) (49/50) (85/100) [(3:ℚ), 3, 3]
      = List.replicate 3 (((59:ℚ)/100 : ℝ)) :=
  ⟨⟨by simp, by with_unfolding_all decide⟩,
   adapt_norm_degenerate_spec [(3:ℚ), 3, 3] (by simp) (by with_unfolding_all decide)⟩

/-- **C4.** If the OCR backend is unavailable or raises on every per-frame
call, `analyze_video` still completes (the model is a total function: no OCR
exception can propagate), each affected frame degrades to no text detected
(empty word list, text-area ratio 0.0), and the returned signals report
`logo_visible_ratio = 0.0`; every timeline entry likewise shows no logo and
zero text area. -/
theorem ocr_failure_degrades (fps : ℚ) (total_frames : ℕ) (frames : List SceneFrame)
    (kws : List String) (config : SceneConfig)
    (h : ∀ f ∈ frames, f.ocr = .unavailable ∨ f.ocr = .failure) :
    (∀ o : OcrOutcome, o = .unavailable ∨ o = .failure → ocr_on_frame o = ([], 0)) ∧
    (analyze_video fps total_frames frames kws config).signals.logo_visible_ratio = 0 ∧
    (∀ e ∈ (analyze_video fps total_frames frames kws config).timeline,
      e.logo = false ∧ e.text_area = 0) := by
  have hclean : CleanState (sceneRunState fps total_frames frames kws config) := by
    unfold sceneRunState
    exact sceneScan_clean _ _ _ _ _ h
  refine ⟨ocr_on_frame_degenerate, ?_, ?_⟩
  · simp only [analyze_video]
    split
    · rfl
    · dsimp only
      have hz : logoVisibleRatio (sceneRunState fps total_frames frames kws config) = 0 := by
        unfold logoVisibleRatio
        rw [hclean.1]
        split <;> simp
      rw [hz]
      simp [roundTo3]
  · simp only [analyze_video]
    split
    · intro e he
      simp [emptySceneBlock] at he
    · dsimp only
      exact fun e he => hclean.2 e he

/-- Witness for C4: a one-frame video whose OCR call raises. -/
theorem ocr_failure_degrades_witness :
    (∀ o : OcrOutcome, o = .unavailable ∨ o = .failure → ocr_on_frame o = ([], 0)) ∧
    (analyze_video 30 1 [⟨⟨100, 100, 50, 200, 5⟩, .failure⟩] []
      defaultSceneConfig).signals.logo_visible_ratio = 0 ∧
    (∀ e ∈ (analyze_video 30 1 [⟨⟨100, 100, 50, 200, 5⟩, .failure⟩] []
      defaultSceneConfig).timeline, e.logo = false ∧ e.text_area = 0) :=
  ocr_failure_degrades 30 1 [⟨⟨100, 100, 50, 200, 5⟩, .failure⟩] [] defaultSceneConfig
    (by
      intro f hf
      rw [List.mem_singleton] at hf
      subst hf
      exact Or.inr rfl)

/-- **C1.** With the default configuration (whose sub-score weights 0.30,
0.25, 0.15, 0.10, 0.10, 0.10 sum to 1.0), for every video — in particular
every video whose per-frame metric means lie in `[0, 255]` — the final scene
score and all six sub-scores computed by `analyze_video` lie in `[0, 100]`,
and with zero sampled frames the returned score is exactly 0.0 (the
default-shaped result); the model is a total function, so no exception and no
NaN can be produced once the video opened. -/
theorem scene_score_bounds (fps : ℚ) (total_frames : ℕ) (frames : List SceneFrame)
    (kws : List String) :
    (0 ≤ (analyze_video fps total_frames frames kws defaultSceneConfig).score ∧
      (analyze_video fps total_frames frames kws defaultSceneConfig).score ≤ 100) ∧
    SubScoresIn0100 (sceneSubScores (sceneEffConfig fps total_frames defaultSceneConfig)
      (sceneRunState fps total_frames frames kws defaultSceneConfig)) ∧
    ((sceneRunState fps total_frames frames kws defaultSceneConfig).times = [] →
      (analyze_video fps total_frames frames kws defaultSceneConfig).score = 0) := by
  obtain ⟨sf, oe, heq⟩ :=
    autoscale_config_fields defaultSceneConfig (sceneDuration fps total_frames)
  have heff : sceneEffConfig fps total_frames defaultSceneConfig
      = { defaultSceneConfig with sample_fps := sf, ocr_every_s := oe } := heq
  have hcnt : CounterInv (sceneRunState fps total_frames frames kws defaultSceneConfig) := by
    unfold sceneRunState
    exact sceneScan_counterInv _ _ _ _ _
  have hss : SubScoresIn0100 (sceneSubScores (sceneEffConfig fps total_frames defaultSceneConfig)
      (sceneRunState fps total_frames frames kws defaultSceneConfig)) := by
    apply sceneSubScores_mem _ _ hcnt <;> rw [heff] <;> norm_num [defaultSceneConfig]
  have hfinal := sceneFinalScore_mem (sceneEffConfig fps total_frames defaultSceneConfig)
    (sceneSubScores (sceneEffConfig fps total_frames defaultSceneConfig)
      (sceneRunState fps total_frames frames kws defaultSceneConfig))
    (by rw [heff]; rfl) (by rw [heff]; rfl) (by rw [heff]; rfl)
    (by rw [heff]; rfl) (by rw [heff]; rfl) (by rw [heff]; rfl)
    hss
  refine ⟨?_, hss, ?_⟩
  · simp only [analyze_video]
    split
    · norm_num [emptySceneBlock]
    · exact roundTo1_mem _ hfinal.1 hfinal.2
  · intro hT
    simp only [analyze_video]
    rw [if_pos hT]
    rfl

/-- Witness for C1: a metadata-only video with no decodable frame has zero
sampled frames and score exactly 0. -/
theorem scene_score_bounds_witness :
    (0 ≤ (analyze_video 30 0 [] [] defaultSceneConfig).score ∧
      (analyze_video 30 0 [] [] defaultSceneConfig).score ≤ 100) ∧
    ((sceneRunState 30 0 [] [] defaultSceneConfig).times = [] ∧
      (analyze_video 30 0 [] [] defaultSceneConfig).score = 0) :=
  ⟨(scene_score_bounds 30 0 [] []).1,
   rfl, (scene_score_bounds 30 0 [] []).2.2 rfl⟩

/-- **C9.** On the segments (0–2 s "do you like this product?", 3–5 s
"yes i love it", 10–12 s "buy now buy now"): `build_timeline` yields
`question_ratio = 1/3` and a total CTA hit count of 2 ("buy now" matched
twice in the third segment), and `detect_q_and_answers` with the 15-second
QA gap finds exactly one question and counts it answered (the second segment
starts within the gap and contains "yes"), so the reply rate is 1. -/
theorem interaction_scenario_spec :
    (build_timeline c9Segments 10).2.1 = 1/3 ∧
    (build_timeline c9Segments 10).2.2 = 2 ∧
    detect_q_and_answers c9Segments 15 = (1, 1) ∧
    ((detect_q_and_answers c9Segments 15).2 : ℚ)
      / max 1 ((detect_q_and_answers c9Segments 15).1 : ℚ) = 1 := by
  with_unfolding_all decide

/-- **C3.** If face extraction yields no metrics for any sampled frame,
`analyze_emotion` returns the degenerate block: score 0.0, an empty timeline,
and exactly one highlight whose reason explains the no-face failure
("未检测到人脸或人脸覆盖过低"); the model is a total function, so no
exception is raised once the video opened. -/
theorem analyze_emotion_no_face (fps : ℚ) (total_frames : ℕ)
    (frames : List (Option FaceMetrics)) (cfg : EmotionConfig)
    (h : ∀ p ∈ frames.enum,
      p.1 % emotionStep fps (emotionSampleFps cfg (emotionDuration fps total_frames)) = 0 →
        p.2 = none) :
    analyze_emotion fps total_frames frames cfg = noFaceEmotionBlock := by
  have hvalid : emotionValid frames
      (emotionStep fps (emotionSampleFps cfg (emotionDuration fps total_frames))) fps = [] := by
    apply List.filterMap_eq_nil_iff.mpr
    intro p hp
    by_cases hs : p.1 % emotionStep fps
        (emotionSampleFps cfg (emotionDuration fps total_frames)) = 0
    · rw [if_pos hs, h p hp hs]
      rfl
    · rw [if_neg hs]
  simp only [analyze_emotion, hvalid]
  rfl

/-- `crGo` is `runsAuxT` composed with the minimum-span filter. -/
lemma crGo_eq_filter (min_s : ℚ) :
    ∀ (l : List (ℚ × Bool)) (out : List (ℚ × ℚ)) (st pv : Option ℚ),
      crGo min_s out st pv l
        = out ++ (runsAuxT st pv l).filter (fun r => decide (min_s ≤ r.2 - r.1)) := by
  intro l
  induction l with
  | nil =>
    intro out st pv
    cases st with
    | none => simp [crGo, runsAuxT]
    | some s =>
      cases pv with
      | none => simp [crGo, runsAuxT]
      | some p =>
        simp only [crGo, runsAuxT]
        by_cases h : min_s ≤ p - s
        · simp [h]
        · simp [h]
  | cons hd rest ih =>
    intro out st pv
    obtain ⟨t, flag⟩ := hd
    cases flag with
    | true =>
      simp only [crGo, runsAuxT, if_true]
      exact ih _ _ _
    | false =>
      cases st with
      | none =>
        simp only [crGo, runsAuxT, Bool.false_eq_true, if_false]
        exact ih _ _ _
      | some s =>
        cases pv with
        | none =>
          simp only [crGo, runsAuxT, Bool.false_eq_true, if_false]
          exact ih _ _ _
        | some p =>
          simp only [crGo, runsAuxT, Bool.false_eq_true, if_false]
          by_cases h : min_s ≤ p - s
          · rw [if_pos h, ih]
            simp [h, List.filter_cons]
          · rw [if_neg h, ih]
            simp [h, List.filter_cons]

/-- `compress_runs` = all maximal runs, filtered by span. -/
lemma compress_runs_eq_runsAuxT (times : List ℚ) (mask : List Bool) (min_s : ℚ) :
    compress_runs times mask min_s
      = (runsAuxT none none (times.zip mask)).filter
          (fun r => decide (min_s ≤ r.2 - r.1)) := by
  unfold compress_runs
  split
  · rename_i h
    subst h
    simp [runsAuxT]
  · rw [crGo_eq_filter]
    simp

/-- The timestamp-level run recursion is the index-level one pushed through
`times.getD`. -/
lemma runsAuxT_eq_map (times : List ℚ) :
    ∀ (ms : List Bool) (i : ℕ) (stI : Option ℕ),
      i + ms.length = times.length →
      (∀ a, stI = some a → a < i) →
      runsAuxT (stI.map (fun a => times.getD a 0))
          (if i = 0 then none else some (times.getD (i - 1) 0))
          ((times.drop i).zip ms)
        = (runsAuxI i stI ms).map (fun r => (times.getD r.1 0, times.getD r.2 0)) := by
  intro ms
  induction ms with
  | nil =>
    intro i stI hlen hst
    have hdrop : times.drop i = [] := by
      apply List.drop_eq_nil_of_le
      simp at hlen
      omega
    rw [hdrop]
    cases stI with
    | none => simp [runsAuxT, runsAuxI]
    | some a =>
      have ha := hst a rfl
      have hi0 : i ≠ 0 := by omega
      simp [runsAuxT, runsAuxI, hi0]
  | cons b ms2 ih =>
    intro i stI hlen hst
    have hi : i < times.length := by
      simp only [List.length_cons] at hlen
      omega
    have hlen2 : i + 1 + ms2.length = times.length := by
      simp only [List.length_cons] at hlen
      omega
    have hdrop : times.drop i = times.getD i 0 :: times.drop (i + 1) := by
      rw [List.getD_eq_get _ _ hi]
      exact (List.get_cons_drop times ⟨i, hi⟩).symm
    rw [hdrop]
    simp only [List.zip_cons_cons]
    have hpv1 : (if i + 1 = 0 then (none : Option ℚ)
        else some (times.getD (i + 1 - 1) 0)) = some (times.getD i 0) := by
      simp
    cases b with
    | true =>
      cases stI with
      | none =>
        have := ih (i + 1) (some i) hlen2 (by
          intro a ha
          injection ha with ha
          omega)
        rw [hpv1] at this
        simp only [runsAuxT, runsAuxI, if_true, Option.map_some'] at this ⊢
        simpa using this
      | some a =>
        have ha := hst a rfl
        have := ih (i + 1) (some a) hlen2 (by
          intro a' ha'
          injection ha' with ha'
          omega)
        rw [hpv1] at this
        simp only [runsAuxT, runsAuxI, if_true, Option.map_some'] at this ⊢
        simpa using this
    | false =>
      cases stI with
      | none =>
        have := ih (i + 1) none hlen2 (by intro a ha; cases ha)
        rw [hpv1] at this
        simp only [runsAuxT, runsAuxI, Bool.false_eq_true, if_false,
          Option.map_none'] at this ⊢
        exact this
      | some a =>
        have ha := hst a rfl
        have hi0 : i ≠ 0 := by omega
        have := ih (i + 1) none hlen2 (by intro a ha; cases ha)
        rw [hpv1] at this
        simp only [runsAuxT, runsAuxI, Bool.false_eq_true, if_false,
          Option.map_some', Option.map_none', hi0, if_neg hi0] at this ⊢
        rw [this]
        simp

/-- `compress_runs` equals the span-filtered maximal index runs mapped to
their first/last timestamps. -/
lemma compress_runs_eq_spec (times : List ℚ) (mask : List Bool) (min_s : ℚ)
    (hlen : mask.length = times.length) :
    compress_runs times mask min_s
      = ((runsIdx mask).filter
          (fun r => decide (min_s ≤ times.getD r.2 0 - times.getD r.1 0))).map
          (fun r => (times.getD r.1 0, times.getD r.2 0)) := by
  rw [compress_runs_eq_runsAuxT]
  have h0 := runsAuxT_eq_map times mask 0 none (by simpa using hlen)
    (by intro a ha; cases ha)
  simp only [Option.map_none', List.drop_zero, if_pos, reduceIte] at h0
  rw [h0, List.filter_map]
  rfl

/-- Facts extractable from `mask.drop i = b :: ms2`. -/
lemma drop_cons_facts {mask : List Bool} {i : ℕ} {b : Bool} {ms2 : List Bool}
    (hms : mask.drop i = b :: ms2) :
    i < mask.length ∧ mask.getD i false = b ∧ mask.drop (i + 1) = ms2 := by
  have hlen : (mask.drop i).length = mask.length - i := List.length_drop i mask
  rw [hms] at hlen
  simp only [List.length_cons] at hlen
  have hi : i < mask.length := by omega
  refine ⟨hi, ?_, ?_⟩
  · have h0 : (mask.drop i)[0]? = mask[i]? := by
      simpa using List.getElem?_drop mask i 0
    rw [hms] at h0
    simp only [List.getElem?_cons_zero] at h0
    rw [List.getD_eq_getElem?_getD, ← h0]
    rfl
  · have h1 : mask.drop (i + 1) = (mask.drop i).drop 1 := by
      rw [List.drop_drop]
    rw [h1, hms]
    rfl

/-- Membership in `runsAuxI` characterized by `IsRun`, with the generalized
loop invariant: `stI = some a` means positions `a … i-1` are all `true` and
`a` starts a run; `stI = none` means no run is open at `i`. -/
lemma runsAuxI_mem_iff (mask : List Bool) :
    ∀ (ms : List Bool) (i : ℕ) (stI : Option ℕ),
      ms = mask.drop i →
      i ≤ mask.length →
      (stI = none → i = 0 ∨ mask.getD (i - 1) false = false) →
      (∀ a, stI = some a → a < i ∧
        (∀ j, a ≤ j → j < i → mask.getD j false = true) ∧
        (a = 0 ∨ mask.getD (a - 1) false = false)) →
      ∀ x y, ((x, y) ∈ runsAuxI i stI ms ↔
        (IsRun mask x y ∧ (match stI with
          | none => i ≤ x
          | some a => x = a ∨ i ≤ x))) := by
  intro ms
  induction ms with
  | nil =>
    intro i stI hms hile hnone hsome x y
    have hilen : mask.length ≤ i := by
      have := congrArg List.length hms
      simp only [List.length_nil, List.length_drop] at this
      omega
    have hieq : i = mask.length := le_antisymm hile hilen
    cases stI with
    | none =>
      simp only [runsAuxI, List.not_mem_nil, false_iff]
      rintro ⟨⟨hxy, hylen, -, -, -⟩, hix⟩
      omega
    | some a =>
      obtain ⟨ha, htrue, hleft⟩ := hsome a rfl
      simp only [runsAuxI, List.mem_singleton, Prod.mk.injEq]
      constructor
      · rintro ⟨rfl, rfl⟩
        refine ⟨⟨by omega, by omega, ?_, hleft, Or.inl (by omega)⟩, Or.inl rfl⟩
        intro j hj1 hj2
        exact htrue j hj1 (by omega)
      · rintro ⟨⟨hxy, hylen, htr, hl, hr⟩, hd⟩
        have hx : x = a := by
          rcases hd with rfl | hix
          · rfl
          · omega
        subst hx
        refine ⟨rfl, ?_⟩
        by_contra hy
        have hy' : y < i - 1 ∨ i - 1 < y := by omega
        rcases hy' with hy' | hy'
        · rcases hr with hr | hr
          · omega
          · have := htrue (y + 1) (by omega) (by omega)
            rw [this] at hr
            cases hr
        · omega
  | cons b ms2 ih =>
    intro i stI hms hile hnone hsome x y
    obtain ⟨hi, hbi, hms2⟩ := drop_cons_facts hms.symm
    cases b with
    | true =>
      cases stI with
      | none =>
        simp only [runsAuxI, if_true, reduceIte]
        rw [ih (i + 1) (some i) hms2.symm (by omega)
          (by intro h; cases h)
          (by
            intro a ha
            injection ha with ha
            subst ha
            refine ⟨by omega, ?_, hnone rfl⟩
            intro j hj1 hj2
            have : j = i := by omega
            subst this
            exact hbi)]
        constructor
        · rintro ⟨hr, hd⟩
          refine ⟨hr, ?_⟩
          rcases hd with rfl | h
          · omega
          · omega
        · rintro ⟨hr, hix⟩
          refine ⟨hr, ?_⟩
          by_cases hxi : x = i
          · exact Or.inl hxi
          · exact Or.inr (by omega)
      | some a =>
        obtain ⟨ha, htrue, hleft⟩ := hsome a rfl
        simp only [runsAuxI, reduceIte]
        rw [ih (i + 1) (some a) hms2.symm (by omega)
          (by intro h; cases h)
          (by
            intro a' ha'
            injection ha' with ha'
            subst ha'
            refine ⟨by omega, ?_, hleft⟩
            intro j hj1 hj2
            by_cases hji : j = i
            · subst hji; exact hbi
            · exact htrue j hj1 (by omega))]
        constructor
        · rintro ⟨hr, hd⟩
          refine ⟨hr, ?_⟩
          rcases hd with rfl | h
          · exact Or.inl rfl
          · exact Or.inr (by omega)
        · rintro ⟨hr, hd⟩
          refine ⟨hr, ?_⟩
          rcases hd with rfl | hix
          · exact Or.inl rfl
          · right
            by_contra hxi
            have hxi' : x = i := by omega
            subst hxi'
            obtain ⟨hxy, hylen, htr, hl, hrr⟩ := hr
            rcases hl with hl | hl
            · omega
            · have htj := htrue (x - 1) (by omega) (by omega)
              rw [htj] at hl
              simp at hl
    | false =>
      cases stI with
      | none =>
        simp only [runsAuxI, Bool.false_eq_true, if_false]
        rw [ih (i + 1) none hms2.symm (by omega)
          (by intro _; right; simpa using hbi)
          (by intro a ha; cases ha)]
        constructor
        · rintro ⟨hr, hix⟩
          exact ⟨hr, by omega⟩
        · rintro ⟨hr, hix⟩
          refine ⟨hr, ?_⟩
          have hxne : x ≠ i := by
            intro hxi
            subst hxi
            obtain ⟨hxy, hylen, htr, -, -⟩ := hr
            have htj := htr x le_rfl hxy
            rw [hbi] at htj
            simp at htj
          omega
      | some a =>
        obtain ⟨ha, htrue, hleft⟩ := hsome a rfl
        simp only [runsAuxI, Bool.false_eq_true, if_false, List.mem_cons,
          Prod.mk.injEq]
        rw [ih (i + 1) none hms2.symm (by omega)
          (by intro _; right; simpa using hbi)
          (by intro a' ha'; cases ha')]
        constructor
        · rintro (⟨rfl, rfl⟩ | ⟨hr, hix⟩)
          · refine ⟨⟨by omega, by omega, ?_, hleft, ?_⟩, Or.inl rfl⟩
            · intro j hj1 hj2
              exact htrue j hj1 (by omega)
            · right
              have hsucc : i - 1 + 1 = i := by omega
              rw [hsucc]
              exact hbi
          · exact ⟨hr, Or.inr (by omega)⟩
        · rintro ⟨hr, hd⟩
          obtain ⟨hxy, hylen, htr, hl, hrr⟩ := hr
          rcases hd with rfl | hix
          · left
            refine ⟨rfl, ?_⟩
            by_contra hy
            have hcase : y < i - 1 ∨ i ≤ y := by omega
            rcases hcase with hy' | hy'
            · rcases hrr with hrr | hrr
              · omega
              · have htj := htrue (y + 1) (by omega) (by omega)
                rw [htj] at hrr
                simp at hrr
            · have htj := htr i (by omega) (by omega)
              rw [hbi] at htj
              simp at htj
          · right
            have hxne : x ≠ i := by
              intro hxi
              subst hxi
              have htj := htr x le_rfl hxy
              rw [hbi] at htj
              simp at htj
            exact ⟨⟨hxy, hylen, htr, hl, hrr⟩, by omega⟩

/-- `runsIdx` lists exactly the maximal `true` runs. -/
lemma runsIdx_mem_iff (mask : List Bool) (a b : ℕ) :
    (a, b) ∈ runsIdx mask ↔ IsRun mask a b := by
  have h := runsAuxI_mem_iff mask mask 0 none (List.drop_zero mask).symm
    (Nat.zero_le _) (fun _ => Or.inl rfl) (fun a ha => by cases ha) a b
  unfold runsIdx
  rw [h]
  exact and_iff_left (Nat.zero_le _)

/-- Elements of `runsAuxI` respect a lower bound on their start, are ordered
intervals, and end before the input runs out. -/
lemma runsAuxI_lb :
    ∀ (ms : List Bool) (i : ℕ) (stI : Option ℕ) (lb : ℕ),
      (∀ a, stI = some a → a < i ∧ lb ≤ a) →
      (stI = none → lb ≤ i) →
      ∀ p ∈ runsAuxI i stI ms,
        lb ≤ p.1 ∧ p.1 ≤ p.2 ∧ p.2 < i + ms.length := by
  intro ms
  induction ms with
  | nil =>
    intro i stI lb hsome hnone p hp
    cases stI with
    | none => simp [runsAuxI] at hp
    | some a =>
      obtain ⟨ha, hlb⟩ := hsome a rfl
      simp only [runsAuxI, List.mem_singleton] at hp
      subst hp
      exact ⟨hlb, by omega, by omega⟩
  | cons b ms2 ih =>
    intro i stI lb hsome hnone p hp
    simp only [List.length_cons]
    cases b with
    | true =>
      cases stI with
      | none =>
        have hlbi := hnone rfl
        simp only [runsAuxI, reduceIte] at hp
        have h := ih (i + 1) (some i) lb
          (by intro a ha; injection ha with ha; subst ha; exact ⟨by omega, hlbi⟩)
          (by intro h; cases h) p hp
        omega
      | some a =>
        obtain ⟨ha, hlb⟩ := hsome a rfl
        simp only [runsAuxI, reduceIte] at hp
        have h := ih (i + 1) (some a) lb
          (by intro a' ha'; injection ha' with ha'; subst ha'; exact ⟨by omega, hlb⟩)
          (by intro h; cases h) p hp
        omega
    | false =>
      cases stI with
      | none =>
        simp only [runsAuxI, Bool.false_eq_true, if_false] at hp
        have h := ih (i + 1) none lb (by intro a ha; cases ha)
          (by intro _; have := hnone rfl; omega) p hp
        omega
      | some a =>
        obtain ⟨ha, hlb⟩ := hsome a rfl
        simp only [runsAuxI, Bool.false_eq_true, if_false, List.mem_cons] at hp
        rcases hp with rfl | hp
        · exact ⟨hlb, by omega, by omega⟩
        · have h := ih (i + 1) none lb (by intro a' ha'; cases ha')
            (by intro _; omega) p hp
          omega

/-- The emitted index runs are pairwise disjoint and in order. -/
lemma runsAuxI_pairwise :
    ∀ (ms : List Bool) (i : ℕ) (stI : Option ℕ),
      (∀ a, stI = some a → a < i) →
      List.Pairwise (fun r s : ℕ × ℕ => r.2 < s.1) (runsAuxI i stI ms) := by
  intro ms
  induction ms with
  | nil =>
    intro i stI hst
    cases stI <;> simp [runsAuxI]
  | cons b ms2 ih =>
    intro i stI hst
    cases b with
    | true =>
      cases stI with
      | none =>
        simp only [runsAuxI, reduceIte]
        exact ih (i + 1) (some i) (by intro a ha; injection ha with ha; omega)
      | some a =>
        have := hst a rfl
        simp only [runsAuxI, reduceIte]
        exact ih (i + 1) (some a) (by intro a' ha'; injection ha' with ha'; omega)
    | false =>
      cases stI with
      | none =>
        simp only [runsAuxI, Bool.false_eq_true, if_false]
        exact ih (i + 1) none (by intro a ha; cases ha)
      | some a =>
        have ha := hst a rfl
        simp only [runsAuxI, Bool.false_eq_true, if_false]
        rw [List.pairwise_cons]
        refine ⟨?_, ih (i + 1) none (by intro a' ha'; cases ha')⟩
        intro p hp
        have hb := runsAuxI_lb ms2 (i + 1) none (i + 1)
          (by intro a' ha'; cases ha') (fun _ => le_rfl) p hp
        dsimp only
        omega

/-- Strictly increasing timestamps: strict index order gives strict time
order. -/
lemma sorted_getD_lt (times : List ℚ) (hs : List.Sorted (· < ·) times)
    (a b : ℕ) (hab : a < b) (hb : b < times.length) :
    times.getD a 0 < times.getD b 0 := by
  have ha : a < times.length := lt_trans hab hb
  rw [List.getD_eq_get _ _ ha, List.getD_eq_get _ _ hb]
  exact List.pairwise_iff_get.mp hs ⟨a, ha⟩ ⟨b, hb⟩ hab

/-- Weak-order version of `sorted_getD_lt`. -/
lemma sorted_getD_le (times : List ℚ) (hs : List.Sorted (· < ·) times)
    (a b : ℕ) (hab : a ≤ b) (hb : b < times.length) :
    times.getD a 0 ≤ times.getD b 0 := by
  rcases eq_or_lt_of_le hab with rfl | h
  · exact le_rfl
  · exact (sorted_getD_lt times hs a b h hb).le

/-- **C5.** For strictly increasing timestamps and an aligned mask,
`compress_runs` emits exactly one interval per maximal contiguous `true` run
whose duration (last minus first timestamp) is at least `min_s` — a run whose
duration equals `min_s` exactly is included, shorter runs are absent — with
endpoints at the run's first and last timestamps (the equality with the
filtered, mapped `runsIdx`, whose members are exactly the `IsRun`s);
reconstructing a mask as `true` inside the emitted intervals and `false`
elsewhere agrees with the input mask on every position of every qualifying
run, and is `false` at every position where the input mask is `false`; and
the emitted intervals are ordered, pairwise non-overlapping and well-formed. -/
theorem compress_runs_spec (times : List ℚ) (mask : List Bool) (min_s : ℚ)
    (hlen : mask.length = times.length)
    (hsorted : List.Sorted (· < ·) times) :
    (compress_runs times mask min_s
      = ((runsIdx mask).filter
          (fun r => decide (min_s ≤ times.getD r.2 0 - times.getD r.1 0))).map
          (fun r => (times.getD r.1 0, times.getD r.2 0))) ∧
    (∀ a b : ℕ, (a, b) ∈ runsIdx mask ↔ IsRun mask a b) ∧
    (∀ j a b : ℕ, (a, b) ∈ runsIdx mask →
      min_s ≤ times.getD b 0 - times.getD a 0 → a ≤ j → j ≤ b →
      mask.getD j false = true ∧
        reconstruct (compress_runs times mask min_s) (times.getD j 0) = true) ∧
    (∀ j : ℕ, j < times.length → mask.getD j false = false →
      reconstruct (compress_runs times mask min_s) (times.getD j 0) = false) ∧
    List.Pairwise (fun r s : ℚ × ℚ => r.2 < s.1) (compress_runs times mask min_s) ∧
    (∀ r ∈ compress_runs times mask min_s, r.1 ≤ r.2) := by
  have heq := compress_runs_eq_spec times mask min_s hlen
  have hmem := runsIdx_mem_iff mask
  refine ⟨heq, hmem, ?_, ?_, ?_, ?_⟩
  · -- reconstruction agrees on qualifying runs
    intro j a b hab hq hja hjb
    obtain ⟨hab', hblen, htr, -, -⟩ := (hmem a b).mp hab
    refine ⟨htr j hja hjb, ?_⟩
    unfold reconstruct
    apply List.any_eq_true.mpr
    refine ⟨(times.getD a 0, times.getD b 0), ?_, ?_⟩
    · rw [heq]
      exact List.mem_map_of_mem _
        (List.mem_filter.mpr ⟨hab, decide_eq_true hq⟩)
    · have h1 : times.getD a 0 ≤ times.getD j 0 :=
        sorted_getD_le times hsorted a j hja (by omega)
      have h2 : times.getD j 0 ≤ times.getD b 0 :=
        sorted_getD_le times hsorted j b hjb (by omega)
      dsimp only
      rw [Bool.and_eq_true]
      exact ⟨decide_eq_true h1, decide_eq_true h2⟩
  · -- reconstruction is false where the mask is false
    intro j hj hmask
    unfold reconstruct
    rw [heq, Bool.eq_false_iff]
    intro htrue
    obtain ⟨r, hr, hpr⟩ := List.any_eq_true.mp htrue
    obtain ⟨rab, hrab, rfl⟩ := List.mem_map.mp hr
    obtain ⟨a', b'⟩ := rab
    have hrun := (hmem a' b').mp (List.mem_filter.mp hrab).1
    obtain ⟨hab', hblen, htr, -, -⟩ := hrun
    simp only [Bool.and_eq_true, decide_eq_true_eq] at hpr
    obtain ⟨hle1, hle2⟩ := hpr
    have hja : a' ≤ j := by
      by_contra hja
      push_neg at hja
      have := sorted_getD_lt times hsorted j a' hja (by omega)
      linarith
    have hjb : j ≤ b' := by
      by_contra hjb
      push_neg at hjb
      have := sorted_getD_lt times hsorted b' j hjb hj
      linarith
    have := htr j hja hjb
    rw [hmask] at this
    simp at this
  · -- ordered and pairwise non-overlapping
    rw [heq, List.pairwise_map]
    have hpw : List.Pairwise (fun r s : ℕ × ℕ => r.2 < s.1) (runsIdx mask) :=
      runsAuxI_pairwise mask 0 none (by intro a ha; cases ha)
    have hpwf : List.Pairwise (fun r s : ℕ × ℕ => r.2 < s.1)
        ((runsIdx mask).filter
          (fun r => decide (min_s ≤ times.getD r.2 0 - times.getD r.1 0))) :=
      List.Pairwise.sublist (List.filter_sublist _) hpw
    apply List.Pairwise.imp_of_mem ?_ hpwf
    intro r s hrmem hsmem hrs
    have hsrun : IsRun mask s.1 s.2 := by
      have := (List.mem_filter.mp hsmem).1
      exact (hmem s.1 s.2).mp (by simpa using this)
    obtain ⟨hs1, hs2, -, -, -⟩ := hsrun
    exact sorted_getD_lt times hsorted r.2 s.1 hrs (by omega)
  · -- intervals are well-formed
    rw [heq]
    intro r hr
    obtain ⟨rab, hrab, rfl⟩ := List.mem_map.mp hr
    obtain ⟨a', b'⟩ := rab
    obtain ⟨hab', hblen, -, -, -⟩ := (hmem a' b').mp (List.mem_filter.mp hrab).1
    exact sorted_getD_le times hsorted a' b' hab' (by omega)

/-- Witness for C5: timestamps 0,1,2,3 with mask T,T,F,T and minimum span 1
— the first run lasts exactly the minimum span and is kept, the trailing
single-sample run is dropped. -/
theorem compress_runs_spec_witness :
    (([true, true, false, true] : List Bool).length = ([(0:ℚ), 1, 2, 3]).length ∧
      List.Sorted (· < ·) [(0:ℚ), 1, 2, 3]) ∧
    compress_runs [(0:ℚ), 1, 2, 3] [true, true, false, true] 1 = [((0:ℚ), (1:ℚ))] :=
  ⟨⟨by decide, by with_unfolding_all decide⟩,
   by
    have h := compress_runs_spec [(0:ℚ), 1, 2, 3] [true, true, false, true] 1
      (by decide) (by with_unfolding_all decide)
    exact h.1.trans (by with_unfolding_all decide)⟩

/-- Witness for C3: a two-frame video in which no frame has a detectable
face. -/
theorem analyze_emotion_no_face_witness :
    (∀ p ∈ (List.enum ([none, none] : List (Option FaceMetrics))),
      p.1 % emotionStep 30 (emotionSampleFps defaultEmotionConfig (emotionDuration 30 2)) = 0 →
        p.2 = none) ∧
    analyze_emotion 30 2 [none, none] defaultEmotionConfig = noFaceEmotionBlock :=
  ⟨by with_unfolding_all decide,
   analyze_emotion_no_face 30 2 [none, none] defaultEmotionConfig
     (by with_unfolding_all decide)⟩

end Livestream
